import Mathlib

/-!
# Verification of the factif-ai exploration core

A shallow embedding of the exploration orchestrator of the factif-ai
repository, together with theorems settling the specification claims.

The embedding covers:

* the tag protocol parser `MessagePatterns.parseMessage`
  (`src/frontend/src/utils/messagePatterns.ts`, lines 43-249), including a
  faithful backtracking model of the four JavaScript regular expressions it
  uses (leftmost match, lazy quantifiers shortest-first, greedy quantifiers
  longest-first, optional groups attempted before being skipped) and a
  model of `JSON.parse`, which `performActionResultMatch` applies to the
  `omni_parser` capture with no `try`/`catch` — its `SyntaxError` on
  non-JSON input propagates out of `parseMessage` (`Except.error`);
* the exploration session state of the `useExploreChat` hook
  (`messagePatterns.ts`, lines 274-860): the page graph, the per-route
  frontier queue, `getNextToExplore`, `handleEdgeAndNodeCreation`,
  `handleQueueUpdate`, `cleanCompletedQueue` and `processExploreOutput`;
* the retry loop of `ExploreModeAnthropicProvider.streamResponse` /
  `processStream` (`src/unnamed/part_001`);
* the connection-timeout guard of `sendChatMessage`
  (`src/unnamed/part_003`, lines 12-139);
* the `isProcessing` admission guard of `handleExploreMessage`.

JavaScript strings are modelled as `List Char`; `uuid()` is modelled as a
fresh-counter draw (`nextId`); JavaScript string truthiness (`if (s)`,
`s || d`) is modelled as an emptiness test.
-/

set_option maxRecDepth 16384
set_option maxHeartbeats 1600000

/-! ## Protocol parser: characters, substring search, slices -/

/-- The whitespace characters matched by the regex classes `[\s\n]` and by
`String.prototype.trim` (restricted to ASCII; the tag grammar and all claim
inputs only involve ASCII whitespace). -/
def isWsChar (c : Char) : Bool :=
  c = ' ' || c = '\t' || c = '\n' || c = '\r' || c = '\x0b' || c = '\x0c'

/-- `String.prototype.trim`: strip leading and trailing whitespace. -/
def trimList (l : List Char) : List Char :=
  ((l.dropWhile isWsChar).reverse.dropWhile isWsChar).reverse

/-- `String.prototype.indexOf(needle)`: index of the first occurrence of
`needle` in `hay`, `none` when absent (JS returns `-1`). -/
def findSub (needle : List Char) : List Char → Option Nat
  | [] => if needle.isPrefixOf ([] : List Char) then some 0 else none
  | c :: hs =>
    if needle.isPrefixOf (c :: hs) then some 0
    else (findSub needle hs).map (· + 1)

/-- `String.prototype.indexOf(needle, start)`: first occurrence at or after
index `start`. -/
def findSubFrom (needle hay : List Char) (start : Nat) : Option Nat :=
  (findSub needle (hay.drop start)).map (· + start)

/-- `String.prototype.slice(start, stop)` for `start ≤ stop` (the only way
the parser uses it). -/
def jsSlice (l : List Char) (start stop : Nat) : List Char :=
  (l.drop start).take (stop - start)

/-! ## Protocol parser: a backtracking model of the four regexes

Each of the four patterns in `MessagePatterns.patterns` is a sequence of
the following atoms.  All four regexes carry the `s` flag, so `.` matches
any character; `[\s\S]` likewise matches any character.

* `lit s` — a literal;
* `wsStar` — greedy `[\s\n]*` (longest whitespace run first, then
  backtrack to shorter ones);
* `lazyGroup i` — a lazy capturing group `(.*?)` / `([\s\S]*?)`
  (shortest capture first, then longer ones);
* `lazyAny` — a non-capturing lazy `[\s\S]*?`;
* `optGroup sep open i close` — a greedy optional field group
  `(?: sep <tag> LAZY </tag> )?` where `sep` is either `[\s\n]*` or
  `[\s\S]*?` (the group is attempted, with all its internal choice points,
  before being skipped) — every optional group in the four source regexes
  has exactly this shape;
* `statusAlt s1 s2 i` — the capturing alternation `(success|error)`
  (left alternative first).
-/

inductive SepKind where
  | wsStarSep
  | lazyAnySep
deriving DecidableEq, Repr

inductive RAtom where
  | lit (s : List Char)
  | wsStar
  | lazyGroup (idx : Nat)
  | lazyAny
  | optGroup (sep : SepKind) (openL : List Char) (idx : Nat) (closeL : List Char)
  | statusAlt (s1 s2 : List Char) (idx : Nat)
deriving DecidableEq, Repr

/-- Captured groups of a match: group index paired with captured text. -/
abbrev Groups := List (Nat × List Char)

def lookupGroup (g : Groups) (i : Nat) : Option (List Char) :=
  (g.find? (fun p => p.1 == i)).map (·.2)

/-- Split offsets a separator tries, in backtracking order: greedy `[\s\n]*`
tries the longest whitespace prefix first; lazy `[\s\S]*?` tries the
shortest prefix first. -/
def sepSplits (sep : SepKind) (input : List Char) : List Nat :=
  match sep with
  | .wsStarSep =>
    let k := (input.takeWhile isWsChar).length
    (List.range (k + 1)).map (fun j => k - j)
  | .lazyAnySep => List.range (input.length + 1)

/-- Match a sequence of atoms at the start of `input` (the match may end
before `input` does, as a JS match is not end-anchored), returning the
captured groups of the first successful assignment in JS backtracking
order. -/
def matchSeq : List RAtom → List Char → Groups → Option Groups
  | [], _, g => some g
  | .lit s :: rest, input, g =>
    if s.isPrefixOf input then matchSeq rest (input.drop s.length) g else none
  | .wsStar :: rest, input, g =>
    (sepSplits .wsStarSep input).findSome? (fun i => matchSeq rest (input.drop i) g)
  | .lazyGroup idx :: rest, input, g =>
    (List.range (input.length + 1)).findSome?
      (fun i => matchSeq rest (input.drop i) ((idx, input.take i) :: g))
  | .lazyAny :: rest, input, g =>
    (List.range (input.length + 1)).findSome? (fun i => matchSeq rest (input.drop i) g)
  | .optGroup sep o idx c :: rest, input, g =>
    ((sepSplits sep input).findSome? (fun i =>
      let s1 := input.drop i
      if o.isPrefixOf s1 then
        let s2 := s1.drop o.length
        (List.range (s2.length + 1)).findSome? (fun j =>
          let s3 := s2.drop j
          if c.isPrefixOf s3 then matchSeq rest (s3.drop c.length) ((idx, s2.take j) :: g)
          else none)
      else none)) <|>
    matchSeq rest input g
  | .statusAlt s1 s2 idx :: rest, input, g =>
    (if s1.isPrefixOf input then matchSeq rest (input.drop s1.length) ((idx, s1) :: g)
     else none) <|>
    (if s2.isPrefixOf input then matchSeq rest (input.drop s2.length) ((idx, s2) :: g)
     else none)

/-- `String.prototype.match(re)` for a non-global regex: the groups of the
leftmost match. -/
def firstMatchG (atoms : List RAtom) (s : List Char) : Option Groups :=
  (List.range (s.length + 1)).findSome? (fun j => matchSeq atoms (s.drop j) [])

/-- `MessagePatterns.patterns.followupQuestion`. -/
def followupQuestionAtoms : List RAtom :=
  [ .lit ("<ask_followup_question>".toList), .wsStar,
    .lit ("<question>".toList), .wsStar, .lazyGroup 1, .wsStar,
    .lit ("</question>".toList), .wsStar, .lit ("</ask_followup_question>".toList) ]

/-- `MessagePatterns.patterns.completeTask`. -/
def completeTaskAtoms : List RAtom :=
  [ .lit ("<complete_task>".toList), .wsStar, .lit ("<result>".toList),
    .lazyGroup 1, .lit ("</result>".toList),
    .optGroup .wsStarSep ("<command>".toList) 2 ("</command>".toList),
    .wsStar, .lit ("</complete_task>".toList) ]

/-- `MessagePatterns.patterns.performAction`. -/
def performActionAtoms : List RAtom :=
  [ .lit ("<perform_action>".toList), .lazyAny, .lit ("<action>".toList),
    .lazyGroup 1, .lit ("</action>".toList),
    .optGroup .lazyAnySep ("<url>".toList) 2 ("</url>".toList),
    .optGroup .lazyAnySep ("<coordinate>".toList) 3 ("</coordinate>".toList),
    .optGroup .lazyAnySep ("<text>".toList) 4 ("</text>".toList),
    .optGroup .lazyAnySep ("<key>".toList) 5 ("</key>".toList),
    .optGroup .lazyAnySep ("<about_this_action>".toList) 6 ("</about_this_action>".toList),
    .optGroup .lazyAnySep ("<marker_number>".toList) 7 ("</marker_number>".toList),
    .lazyAny, .lit ("</perform_action>".toList) ]

/-- `MessagePatterns.patterns.actionResult`. -/
def actionResultAtoms : List RAtom :=
  [ .lit ("<perform_action_result>".toList), .lazyAny, .lit ("<action_status>".toList),
    .statusAlt ("success".toList) ("error".toList) 1,
    .lit ("</action_status>".toList), .lazyAny, .lit ("<action_message>".toList),
    .lazyGroup 2, .lit ("</action_message>".toList),
    .optGroup .lazyAnySep ("<screenshot>".toList) 3 ("</screenshot>".toList),
    .optGroup .lazyAnySep ("<omni_parser>".toList) 4 ("</omni_parser>".toList),
    .lazyAny, .lit ("</perform_action_result>".toList) ]

/-! ## `JSON.parse`

`performActionResultMatch` applies `JSON.parse` to the `omni_parser`
capture (`messagePatterns.ts`, line 195) with no surrounding `try`/`catch`,
so a capture that is not valid JSON makes `parseMessage` throw a
`SyntaxError`.  The model below parses the JSON grammar of `JSON.parse`
(ECMA-404: the four whitespace characters, `null`/`true`/`false`, numbers,
strings with validated escapes, arrays and objects, and full consumption of
the input).  Numeric literals and string contents are kept as their source
characters: the program only stores the parsed value, so the claims depend
only on the parse succeeding or throwing. -/

inductive JsValue where
  | null
  | bool (b : Bool)
  | num (lit : List Char)
  | str (raw : List Char)
  | arr (elems : List JsValue)
  | obj (fields : List (List Char × JsValue))

/-- The JSON whitespace characters (strictly fewer than the regex class
`\s` of `isWsChar`). -/
def jsonWsChar (c : Char) : Bool := c = ' ' || c = '\t' || c = '\n' || c = '\r'

def jsonSkipWs (l : List Char) : List Char := l.dropWhile jsonWsChar

def jsonHexDigit (c : Char) : Bool :=
  c.isDigit || ('a' ≤ c && c ≤ 'f') || ('A' ≤ c && c ≤ 'F')

def jsonEscapeChar (c : Char) : Bool :=
  c = '"' || c = '\\' || c = '/' || c = 'b' || c = 'f' || c = 'n' || c = 'r' || c = 't'

/-- The body of a JSON string after its opening quote: the source
characters up to the closing quote (escapes validated, control characters
rejected), and the remaining input after the closing quote. -/
def jsonStringBody : List Char → Option (List Char × List Char)
  | [] => none
  | '"' :: rest => some ([], rest)
  | '\\' :: 'u' :: h1 :: h2 :: h3 :: h4 :: rest =>
    if jsonHexDigit h1 && jsonHexDigit h2 && jsonHexDigit h3 && jsonHexDigit h4 then
      (jsonStringBody rest).map (fun p => ('\\' :: 'u' :: h1 :: h2 :: h3 :: h4 :: p.1, p.2))
    else none
  | '\\' :: e :: rest =>
    if jsonEscapeChar e then
      (jsonStringBody rest).map (fun p => ('\\' :: e :: p.1, p.2))
    else none
  | c :: rest =>
    if c.toNat < 32 then none
    else (jsonStringBody rest).map (fun p => (c :: p.1, p.2))

def jsonDigits (l : List Char) : List Char × List Char :=
  (l.takeWhile Char.isDigit, l.dropWhile Char.isDigit)

/-- The integer part of a JSON number after an optional minus sign:
`0`, or a nonzero digit followed by digits. -/
def jsonIntTail : List Char → Option (List Char × List Char)
  | '0' :: rest => some (['0'], rest)
  | c :: rest => if c.isDigit then some (c :: (jsonDigits rest).1, (jsonDigits rest).2) else none
  | [] => none

/-- The optional fraction part: `.` followed by at least one digit. -/
def jsonFrac : List Char → Option (List Char × List Char)
  | '.' :: rest =>
    match rest with
    | c :: _ => if c.isDigit then some ('.' :: (jsonDigits rest).1, (jsonDigits rest).2) else none
    | [] => none
  | l => some ([], l)

/-- The optional exponent part: `e`/`E`, an optional sign, at least one
digit. -/
def jsonExpPart : List Char → Option (List Char × List Char)
  | c :: rest =>
    if c = 'e' || c = 'E' then
      match rest with
      | s :: rest2 =>
        if s = '+' || s = '-' then
          match rest2 with
          | d :: _ =>
            if d.isDigit then some (c :: s :: (jsonDigits rest2).1, (jsonDigits rest2).2)
            else none
          | [] => none
        else if s.isDigit then some (c :: (jsonDigits rest).1, (jsonDigits rest).2)
        else none
      | [] => none
    else some ([], c :: rest)
  | [] => some ([], [])

def jsonNumber : List Char → Option (List Char × List Char)
  | '-' :: rest =>
    (jsonIntTail rest).bind fun p1 =>
      (jsonFrac p1.2).bind fun p2 =>
        (jsonExpPart p2.2).map fun p3 => ('-' :: (p1.1 ++ p2.1 ++ p3.1), p3.2)
  | l =>
    (jsonIntTail l).bind fun p1 =>
      (jsonFrac p1.2).bind fun p2 =>
        (jsonExpPart p2.2).map fun p3 => (p1.1 ++ p2.1 ++ p3.1, p3.2)

/-- A partially built JSON container: an array with the elements parsed so
far (reversed), or an object with the members parsed so far (reversed) and
the key whose value is being parsed. -/
inductive JsonCtx where
  | inArr (done : List JsValue)
  | inObj (done : List (List Char × JsValue)) (key : List Char)

/-- The parser is about to parse a value, or has just finished one. -/
inductive JsonPhase where
  | expectValue
  | haveValue (v : JsValue)

/-- The JSON parser as an explicit stack machine (one step per fuel unit;
every step that recurses consumes at least one input character). -/
def jsonLoop : Nat → List JsonCtx → JsonPhase → List Char → Option JsValue
  | 0, _, _, _ => none
  | fuel + 1, stack, .expectValue, input =>
    match jsonSkipWs input with
    | [] => none
    | '"' :: rest =>
      match jsonStringBody rest with
      | some p => jsonLoop fuel stack (.haveValue (.str p.1)) p.2
      | none => none
    | '[' :: rest =>
      match jsonSkipWs rest with
      | ']' :: rest2 => jsonLoop fuel stack (.haveValue (.arr [])) rest2
      | _ => jsonLoop fuel (.inArr [] :: stack) .expectValue rest
    | '{' :: rest =>
      match jsonSkipWs rest with
      | '}' :: rest2 => jsonLoop fuel stack (.haveValue (.obj [])) rest2
      | '"' :: rest2 =>
        match jsonStringBody rest2 with
        | some p =>
          match jsonSkipWs p.2 with
          | ':' :: rest4 => jsonLoop fuel (.inObj [] p.1 :: stack) .expectValue rest4
          | _ => none
        | none => none
      | _ => none
    | 't' :: rest =>
      if ("rue").toList.isPrefixOf rest then
        jsonLoop fuel stack (.haveValue (.bool true)) (rest.drop 3)
      else none
    | 'f' :: rest =>
      if ("alse").toList.isPrefixOf rest then
        jsonLoop fuel stack (.haveValue (.bool false)) (rest.drop 4)
      else none
    | 'n' :: rest =>
      if ("ull").toList.isPrefixOf rest then
        jsonLoop fuel stack (.haveValue .null) (rest.drop 3)
      else none
    | l =>
      match jsonNumber l with
      | some p => jsonLoop fuel stack (.haveValue (.num p.1)) p.2
      | none => none
  | fuel + 1, stack, .haveValue v, input =>
    match stack with
    | [] => if jsonSkipWs input = [] then some v else none
    | .inArr done :: stack2 =>
      match jsonSkipWs input with
      | ',' :: rest => jsonLoop fuel (.inArr (v :: done) :: stack2) .expectValue rest
      | ']' :: rest => jsonLoop fuel stack2 (.haveValue (.arr (v :: done).reverse)) rest
      | _ => none
    | .inObj done key :: stack2 =>
      match jsonSkipWs input with
      | ',' :: rest =>
        match jsonSkipWs rest with
        | '"' :: rest2 =>
          match jsonStringBody rest2 with
          | some p =>
            match jsonSkipWs p.2 with
            | ':' :: rest4 =>
              jsonLoop fuel (.inObj ((key, v) :: done) p.1 :: stack2) .expectValue rest4
            | _ => none
          | none => none
        | _ => none
      | '}' :: rest => jsonLoop fuel stack2 (.haveValue (.obj ((key, v) :: done).reverse)) rest
      | _ => none

/-- `JSON.parse`: `some` is the parsed value, `none` a `SyntaxError`
throw. -/
def jsonParse (s : List Char) : Option JsValue :=
  jsonLoop (s.length + 2) [] .expectValue s

/-! ## Protocol parser: message parts and tag processors -/

/-- `MessagePart` (`messagePatterns.ts`, lines 31-36).  The
`omniParserResult` of an `action_result` is the value produced by
`JSON.parse` on the `omni_parser` capture (absent when the capture is
falsy). -/
inductive MessagePart where
  | textPart (content : List Char)
  | followupQuestion (question : List Char)
  | completeTask (result : List Char) (command : Option (List Char))
  | performAction (action : List Char) (url coordinate txt key : Option (List Char))
  | actionResult (status : List Char) (message : List Char)
      (screenshot : Option (List Char)) (omniParserResult : Option JsValue)

/-- JS truthiness of an optional capture: `undefined` and `""` are falsy. -/
def groupTruthy (o : Option (List Char)) : Bool :=
  match o with
  | some s => !s.isEmpty
  | none => false

/-- `...(m[i] && { field: m[i] })`: the field is present iff the capture is
truthy. -/
def optField (o : Option (List Char)) : Option (List Char) :=
  match o with
  | some s => if s.isEmpty then none else some s
  | none => none

/-- `MessagePatterns.processFollowupQuestion`. -/
def processFollowupQuestion (fullMatch : List Char) : Option MessagePart :=
  match (firstMatchG followupQuestionAtoms fullMatch).bind (fun g => lookupGroup g 1) with
  | some q => if q.isEmpty then none else some (.followupQuestion q)
  | none => none

/-- `MessagePatterns.processCompleteTaskMatch`. -/
def processCompleteTaskMatch (fullMatch : List Char) : Option MessagePart :=
  match firstMatchG completeTaskAtoms fullMatch with
  | some g =>
    match lookupGroup g 1 with
    | some r =>
      if r.isEmpty then none
      else some (.completeTask r (optField (lookupGroup g 2)))
    | none => none
  | none => none

/-- `MessagePatterns.performActionMatch`. -/
def performActionMatch (fullMatch : List Char) : Option MessagePart :=
  match firstMatchG performActionAtoms fullMatch with
  | some g =>
    some (.performAction ((lookupGroup g 1).getD [])
      (optField (lookupGroup g 2)) (optField (lookupGroup g 3))
      (optField (lookupGroup g 4)) (optField (lookupGroup g 5)))
  | none => none

/-- `MessagePatterns.performActionResultMatch`.  When the `omni_parser`
capture is truthy the source applies `JSON.parse` to it
(`messagePatterns.ts`, line 195) with no `try`/`catch`: a capture that is
not valid JSON throws, modelled as `Except.error`. -/
def performActionResultMatch (fullMatch : List Char) : Except Unit (Option MessagePart) :=
  match firstMatchG actionResultAtoms fullMatch with
  | some g =>
    match optField (lookupGroup g 4) with
    | some omniRaw =>
      match jsonParse omniRaw with
      | some v =>
        .ok (some (.actionResult ((lookupGroup g 1).getD []) ((lookupGroup g 2).getD [])
          (optField (lookupGroup g 3)) (some v)))
      | none => .error ()
    | none =>
      .ok (some (.actionResult ((lookupGroup g 1).getD []) ((lookupGroup g 2).getD [])
        (optField (lookupGroup g 3)) none))
  | none => .ok none

inductive TagKind where
  | followupQ
  | completeT
  | performA
  | actionR
deriving DecidableEq, Repr

/-- Run the processor of a tag pair.  Only `performActionResultMatch` can
throw; the other three processors cannot. -/
def runProcessor (k : TagKind) (fullTag : List Char) : Except Unit (Option MessagePart) :=
  match k with
  | .followupQ => .ok (processFollowupQuestion fullTag)
  | .completeT => .ok (processCompleteTaskMatch fullTag)
  | .performA => .ok (performActionMatch fullTag)
  | .actionR => performActionResultMatch fullTag

structure TagPair where
  openTag : List Char
  closeTag : List Char
  kind : TagKind
deriving DecidableEq, Repr

/-- The `tagPairs` table of `parseMessage`, in source order. -/
def tagPairs : List TagPair :=
  [ ⟨"<ask_followup_question>".toList, "</ask_followup_question>".toList, .followupQ⟩,
    ⟨"<complete_task>".toList, "</complete_task>".toList, .completeT⟩,
    ⟨"<perform_action>".toList, "</perform_action>".toList, .performA⟩,
    ⟨"<perform_action_result>".toList, "</perform_action_result>".toList, .actionR⟩ ]

/-! ## Protocol parser: the scanner loop -/

/-- The `tagStarts` array of one loop iteration: each tag pair with the
index of the first occurrence of its opening tag, pairs without an
occurrence filtered out. -/
def tagStarts (remaining : List Char) : List (TagPair × Nat) :=
  tagPairs.filterMap (fun tp => (findSub tp.openTag remaining).map (fun i => (tp, i)))

/-- The `reduce` picking the earliest tag (strict `<`, so the first
list entry wins ties, as in the source). -/
def earliestTag (remaining : List Char) : Option (TagPair × Nat) :=
  match tagStarts remaining with
  | [] => none
  | x :: xs => some (xs.foldl (fun mn curr => if curr.2 < mn.2 then curr else mn) x)

/-- Result of one iteration of the `while` loop of `parseMessage`:
either the loop ends (`last`), or it pushed some parts and continues on
the rest of the text (`step`). -/
inductive ScanStep where
  | last (parts : List MessagePart)
  | step (parts : List MessagePart) (next : List Char)

/-- One iteration of the `while` loop of `parseMessage`
(`messagePatterns.ts`, lines 84-155).  A processor throw
(`performActionResultMatch` on a non-JSON `omni_parser` capture)
propagates: nothing in the loop catches it. -/
def parseStep (remaining : List Char) : Except Unit ScanStep :=
  if remaining.isEmpty then .ok (.last [])
  else
    match earliestTag remaining with
    | none =>
      .ok (.last (if (trimList remaining).isEmpty then []
        else [.textPart (trimList remaining)]))
    | some e =>
      let preText := trimList (remaining.take e.2)
      let preParts : List MessagePart := if preText.isEmpty then [] else [.textPart preText]
      match findSubFrom e.1.closeTag remaining (e.2 + e.1.openTag.length) with
      | none =>
        .ok (.step (preParts ++ [.textPart (jsSlice remaining e.2 (e.2 + e.1.openTag.length))])
          (remaining.drop (e.2 + e.1.openTag.length)))
      | some closeIndex =>
        let fullTag := jsSlice remaining e.2 (closeIndex + e.1.closeTag.length)
        match runProcessor e.1.kind fullTag with
        | .error er => .error er
        | .ok emitted =>
          .ok (.step (preParts ++ emitted.toList)
            (remaining.drop (closeIndex + e.1.closeTag.length)))

/-- The scanner loop, with explicit fuel.  Each iteration consumes at least
one character (an opening tag is nonempty), so any fuel exceeding the text
length computes the loop's result; `parseMessageFuel_congr` proves fuel
irrelevance and `parseMessage_eq_step` recovers the loop equation. -/
def parseMessageFuel : Nat → List Char → Except Unit (List MessagePart)
  | 0, _ => .ok []
  | fuel + 1, remaining =>
    match parseStep remaining with
    | .error er => .error er
    | .ok (.last parts) => .ok parts
    | .ok (.step parts next) => (parseMessageFuel fuel next).map (fun ps => parts ++ ps)

/-- `MessagePatterns.parseMessage`: the parsed parts, or `Except.error` for
an uncaught throw. -/
def parseMessage (text : List Char) : Except Unit (List MessagePart) :=
  parseMessageFuel (text.length + 1) text

/-! ## Predicates used by the parser theorems -/

/-- Every character of `l` is whitespace. -/
def wsOnly (l : List Char) : Prop := ∀ c ∈ l, isWsChar c = true

instance (l : List Char) : Decidable (wsOnly l) := by
  unfold wsOnly; infer_instance

/-- No character of `l` is whitespace. -/
def nonWsList (l : List Char) : Prop := ∀ c ∈ l, isWsChar c = false

instance (l : List Char) : Decidable (nonWsList l) := by
  unfold nonWsList; infer_instance


/-- The text parts the scanner emits for the (trimmed) text preceding a
tag: nothing when the trim is empty, else one `text` part. -/
def preTextParts (t : List Char) : List MessagePart :=
  if (trimList t).isEmpty then [] else [.textPart (trimList t)]

/-- A complete well-formed `complete_task` tag: result body `r`,
whitespace `wA`/`wB` in the slack the pattern allows, no `command`
section. -/
def completeTaskTagText (wA r wB : List Char) : List Char :=
  ("<complete_task>").toList ++ (wA ++ (("<result>").toList ++ (r ++
    (("</result>").toList ++ (wB ++ ("</complete_task>").toList)))))

/-- A complete well-formed `ask_followup_question` tag: question body `q`
surrounded by whitespace `wB`/`wC` inside the `question` element, and
whitespace `wA`/`wD` around it. -/
def followupTagText (wA wB q wC wD : List Char) : List Char :=
  ("<ask_followup_question>").toList ++ (wA ++ (("<question>").toList ++ (wB ++ (q ++
    (wC ++ (("</question>").toList ++ (wD ++ ("</ask_followup_question>").toList)))))))

/-- A complete well-formed `perform_action` tag: action body `a`, no
optional sections. -/
def performActionTagText (wA a wB : List Char) : List Char :=
  ("<perform_action>").toList ++ (wA ++ (("<action>").toList ++ (a ++
    (("</action>").toList ++ (wB ++ ("</perform_action>").toList)))))

/-- A complete well-formed `perform_action_result` tag: status `st`
(`success` or `error`), message body `m`, no `screenshot` or
`omni_parser` section. -/
def actionResultTagText (wA st wB m wC : List Char) : List Char :=
  ("<perform_action_result>").toList ++ (wA ++ (("<action_status>").toList ++ (st ++
    (("</action_status>").toList ++ (wB ++ (("<action_message>").toList ++ (m ++
      (("</action_message>").toList ++ (wC ++ ("</perform_action_result>").toList)))))))))

/-- An input containing the opening tag `<complete_task>` with no matching
closing tag, followed by a well-formed `perform_action_result` tag whose
`omni_parser` body `x` is not valid JSON. -/
def unmatchedThrowInput : List Char :=
  ("<complete_task><perform_action_result><action_status>success</action_status><action_message>m</action_message><omni_parser>x</omni_parser></perform_action_result>").toList

/-! ## Exploration session state (`useExploreChat`) -/

/-- The `parent` record of an `IExploreQueueItem`. -/
structure ExploreParentRef where
  url : String
  nodeId : Nat
  id : Nat
deriving DecidableEq, Repr

/-- `IExploreQueueItem`.  `uuid()` values are modelled as fresh naturals. -/
structure ExploreQueueItem where
  text : String
  coordinates : String
  aboutThisElement : String
  source : String
  url : String
  id : Nat
  nodeId : Nat
  parent : ExploreParentRef
deriving DecidableEq, Repr

/-- `IExploredClickableElement`, as produced by
`MessageProcessor.processExploreMessage` (that parser is not under `src/`;
the session claims take the already-extracted element list as input). -/
structure ClickableElement where
  text : String
  coordinates : String
  aboutThisElement : Option String
deriving DecidableEq, Repr

/-- A node of `IExploreGraphData` (render-only position data omitted). -/
structure GraphNode where
  id : Nat
  label : String
  imageData : Option String
  edges : List Nat
deriving DecidableEq, Repr

/-- An edge of `IExploreGraphData` (render-only handle/type data omitted). -/
structure GraphEdge where
  id : Nat
  source : Nat
  target : Nat
  label : String
deriving DecidableEq, Repr

/-- The `currentlyExploring` ref. -/
structure CurrentlyExploring where
  url : String
  id : Nat
  nodeId : Nat
  label : String
deriving DecidableEq, Repr

/-- The mutable refs of `useExploreChat` that the exploration logic reads
and writes: `exploreRoute`, `exploreQueue`, `exploreGraphData`,
`currentlyExploring`, plus the fresh-uuid counter. -/
structure ExploreSessionState where
  exploreRoute : List String
  exploreQueue : List (String × List ExploreQueueItem)
  nodes : List GraphNode
  edges : List GraphEdge
  currentlyExploring : Option CurrentlyExploring
  nextId : Nat
deriving DecidableEq, Repr

/-- Read `exploreQueue.current[url]` (callers only read keys they have
initialised; a missing key reads as `[]`). -/
def queueLookup (q : List (String × List ExploreQueueItem)) (url : String) :
    List ExploreQueueItem :=
  ((q.find? (fun p => p.1 == url)).map (·.2)).getD []

/-- Write `exploreQueue.current[url] = items`. -/
def queueSet (q : List (String × List ExploreQueueItem)) (url : String)
    (items : List ExploreQueueItem) : List (String × List ExploreQueueItem) :=
  if (q.find? (fun p => p.1 == url)).isSome then
    q.map (fun p => if p.1 == url then (p.1, items) else p)
  else q ++ [(url, items)]

/-- `new Set(list)` / `Set.prototype.add`: JS sets preserve insertion
order; `[...set]` is the deduplicated list. -/
def setOfList (l : List String) : List String :=
  l.foldl (fun acc x => if x ∈ acc then acc else acc ++ [x]) []

def setAdd (s : List String) (x : String) : List String :=
  if x ∈ s then s else s ++ [x]

/-- `cleanCompletedQueue` (`messagePatterns.ts`, lines 554-566): builds the
`Set` of explored routes.  The route-pruning body is commented out in the
source, so the set is returned unchanged. -/
def cleanCompletedQueue (exploredRoutes : List String)
    (_currentQueue : List (String × List ExploreQueueItem)) : List String :=
  setOfList exploredRoutes

/-- The result record of `createEdgeOrNode` from `graph.util.ts`. -/
structure CreateEdgeOrNodeResult where
  createNode : Bool
  node : Option GraphNode
deriving DecidableEq, Repr

/-- Modelled from the spec: `createEdgeOrNode` lives in the frontend file
`graph.util.ts`, which is not under `src/`.  Per spec §4.3 and the Page
Node data model ("Identity is the normalized URL; at most one node per URL
exists"), it reports whether a node for the URL already exists in the node
list and returns that node; node labels hold the page URL
(`createConstructNode` stores `label: url`). -/
def createEdgeOrNode (nodes : List GraphNode) (url : String) : CreateEdgeOrNodeResult :=
  match nodes.find? (fun n => n.label == url) with
  | some n => ⟨false, some n⟩
  | none => ⟨true, none⟩

/-- Image normalisation of `createConstructNode`: prepend the data-URI
prefix when missing (the screenshot-object input variant is modelled by its
extracted base64 string). -/
def processImageData (imageData : Option String) : Option String :=
  imageData.map (fun s => if s.startsWith ("data:") then s else "data:image/png;base64," ++ s)

/-- `createConstructNode` (`messagePatterns.ts`, lines 392-424); the
render-only x/y position is omitted. -/
def createConstructNode (s : ExploreSessionState) (currentNodeId : Nat)
    (label : String) (imageData : Option String) : ExploreSessionState :=
  { s with nodes := s.nodes ++ [⟨currentNodeId, label, processImageData imageData, []⟩] }

/-- `createEdge` (`messagePatterns.ts`, lines 426-447): append the edge and
record its id on the source node. -/
def createEdge (s : ExploreSessionState) (sourceId targetId edgeId : Nat)
    (label : String) : ExploreSessionState :=
  { s with
    edges := s.edges ++ [⟨edgeId, sourceId, targetId, label⟩],
    nodes := s.nodes.map (fun n =>
      if n.id == sourceId then { n with edges := n.edges ++ [edgeId] } else n) }

/-- JS falsiness of an optional image string. -/
def strOptFalsy (o : Option String) : Bool :=
  match o with
  | some s => s == ""
  | none => true

/-- `handleEdgeAndNodeCreation` (`messagePatterns.ts`, lines 449-515).
Returns the node id together with the updated state.  The first-node
image-backfill branch of the source requires a node to be found in an
empty node list and is therefore unreachable; it is modelled faithfully
nonetheless. -/
def handleEdgeAndNodeCreation (s : ExploreSessionState) (url : String)
    (imageData : Option String) : Nat × ExploreSessionState :=
  let canCreateNode := createEdgeOrNode s.nodes url
  let nodeId := if canCreateNode.createNode then s.nextId
    else ((canCreateNode.node.map (·.id)).getD 0)
  let s0 := if canCreateNode.createNode then { s with nextId := s.nextId + 1 } else s
  let isFirstNode := s.nodes.isEmpty
  let s1 :=
    if canCreateNode.createNode then createConstructNode s0 nodeId url imageData
    else if isFirstNode && strOptFalsy ((canCreateNode.node.map (·.imageData)).getD none)
        && imageData.isSome then
      { s0 with nodes := s0.nodes.map (fun n =>
          if n.id == nodeId then { n with imageData := processImageData imageData } else n) }
    else s0
  match s.currentlyExploring with
  | some ce => (nodeId, createEdge s1 ce.nodeId nodeId ce.id ce.label)
  | none => (nodeId, s1)

/-- `(parent?.field as string) || fallback` for string fields. -/
def jsOrStr (o : Option String) (d : String) : String :=
  match o with
  | some v => if v == "" then d else v
  | none => d

/-- `handleQueueUpdate` (`messagePatterns.ts`, lines 517-552): one frontier
item per element that carries both display text and coordinates, pushed to
`exploreQueue[url]`.  `uuid()` ids are drawn from the fresh counter; the
`|| nodeId` / `|| elementId` fallbacks on uuid-valued fields fire exactly
when `parent` is absent (uuids are never the empty string). -/
def handleQueueUpdate (s : ExploreSessionState) (elements : List ClickableElement)
    (fullResponse : String) (url : String) (nodeId : Nat)
    (parent : Option ExploreParentRef) : ExploreSessionState :=
  elements.foldl (fun st element =>
    if element.text ≠ "" ∧ element.coordinates ≠ "" then
      let elementId := st.nextId
      let item : ExploreQueueItem :=
        { text := element.text
          coordinates := element.coordinates
          aboutThisElement := element.aboutThisElement.getD ""
          source := fullResponse
          url := url
          id := elementId
          nodeId := nodeId
          parent :=
            { url := jsOrStr (parent.map (·.url)) url
              nodeId := match parent with | some p => p.nodeId | none => nodeId
              id := match parent with | some p => p.id | none => elementId } }
      { st with
        exploreQueue := queueSet st.exploreQueue url (queueLookup st.exploreQueue url ++ [item])
        nextId := st.nextId + 1 }
    else st) s

/-- `getNextToExplore` (`messagePatterns.ts`, lines 609-625): read the
*first* visited route, `shift()` its queue, and record the shifted item as
`currentlyExploring`. -/
def getNextToExplore (s : ExploreSessionState) : Option ExploreQueueItem × ExploreSessionState :=
  match s.exploreRoute.head? with
  | none => (none, s)
  | some route =>
    match queueLookup s.exploreQueue route with
    | [] => (none, s)
    | item :: rest =>
      (some item,
        { s with
          exploreQueue := queueSet s.exploreQueue route rest
          currentlyExploring := some ⟨route, item.id, item.nodeId, item.text⟩ })

/-- `processExploreOutput` (`messagePatterns.ts`, lines 569-607).
`elements` is the result of `MessageProcessor.processExploreMessage` on the
full response; `currentUrl` is the answer of `getCurrentUrl` (`none` models
the `null` of a failed request, `some ""` the empty URL of a not-ready
driver).  When the URL is missing the source returns early, before the
`exploreRoute` write-back, leaving every ref untouched. -/
def processExploreOutput (s : ExploreSessionState) (elements : List ClickableElement)
    (fullResponse : String) (parent : Option ExploreParentRef)
    (currentUrl : Option String) (imageData : Option String) :
    ExploreSessionState × Option ClickableElement :=
  let routeSet := cleanCompletedQueue s.exploreRoute s.exploreQueue
  match elements with
  | [] => ({ s with exploreRoute := routeSet }, none)
  | e0 :: _ =>
    match currentUrl with
    | none => (s, none)
    | some url =>
      if url == "" then (s, none)
      else if url ∈ routeSet then ({ s with exploreRoute := routeSet }, some e0)
      else
        let routeSet2 := setAdd routeSet url
        let s1 := { s with exploreQueue := queueSet s.exploreQueue url [] }
        let r := handleEdgeAndNodeCreation s1 url imageData
        let s3 := handleQueueUpdate r.2 elements fullResponse url r.1 parent
        ({ s3 with exploreRoute := routeSet2 }, some e0)

/-- The dequeue policy in the words of the spec (§4.4): the oldest
still-nonempty route in visited order.  Used only to compare the source's
`getNextToExplore` against the specified policy. -/
def oldestNonemptyRoute (s : ExploreSessionState) : Option String :=
  s.exploreRoute.find? (fun r => !(queueLookup s.exploreQueue r).isEmpty)

/-- The `currentlyExploring` record as it is passed for the `parent`
argument of `processExploreOutput` (only `url`, `nodeId` and `id` are
read). -/
def ceToParent (ce : CurrentlyExploring) : ExploreParentRef :=
  ⟨ce.url, ce.nodeId, ce.id⟩

def exploreInitState : ExploreSessionState :=
  { exploreRoute := [], exploreQueue := [], nodes := [], edges := [],
    currentlyExploring := none, nextId := 0 }

/-! ## Concrete traces for the frontier and graph claims -/

def elemA1 : ClickableElement := ⟨"Login", "100,200", some "login button"⟩

def elemB1 : ClickableElement := ⟨"Profile", "300,400", some "profile link"⟩

/-- Discover page `https://x/a` (one element `Login`). -/
def traceS1 : ExploreSessionState :=
  (processExploreOutput exploreInitState [elemA1] "respA" none (some "https://x/a") none).1

/-- Dequeue the `Login` item: route `a` is now drained and `Login` is the
item currently being explored. -/
def traceS2 : ExploreSessionState := (getNextToExplore traceS1).2

/-- First discovery of page `https://x/b`, reached from `a` via `Login`. -/
def traceS3 : ExploreSessionState :=
  (processExploreOutput traceS2 [elemB1] "respB"
    (traceS2.currentlyExploring.map ceToParent) (some "https://x/b") none).1

/-- Second, consecutive discovery of `https://x/b` in the same situation. -/
def traceS4 : ExploreSessionState :=
  (processExploreOutput traceS3 [elemB1] "respB2"
    (traceS3.currentlyExploring.map ceToParent) (some "https://x/b") none).1

/-- The frontier item enqueued by the first discovery (`traceS1`): the
fresh counter draws id `1` (the node for `https://x/a` drew `0`). -/
def traceItem1 : ExploreQueueItem :=
  { text := "Login", coordinates := "100,200", aboutThisElement := "login button",
    source := "respA", url := "https://x/a", id := 1, nodeId := 0,
    parent := { url := "https://x/a", nodeId := 0, id := 1 } }

/-! ## Model session client: the retry loop (`ExploreModeAnthropicProvider`) -/

/-- A `StreamResponse` object written to the SSE response; fields default
to the absent (falsy) value as in the source. -/
structure StreamResponse where
  message : String
  isComplete : Bool := false
  isError : Bool := false
deriving DecidableEq, Repr

/-- Outcome of one provider call inside `processStream`: either the stream
yields its deltas and completes, or it throws after having yielded a prefix
of deltas (a throw before any data corresponds to the empty prefix). -/
inductive AttemptOutcome where
  | ok (deltas : List String)
  | fail (deltas : List String)
deriving DecidableEq, Repr

/-- A chunk event: `sendStreamResponse(res, { message, timestamp })`. -/
def chunkEvent (d : String) : StreamResponse := { message := d }

/-- `ExploreModeAnthropicProvider.processStream` (`src/unnamed/part_001`,
lines 231-284): forward each delta as it arrives; on success append the
`isComplete` event and return `true`; on a throw the `catch` block sends a
retry notice — with `isError: false` — and returns `false`. -/
def processStream (a : AttemptOutcome) : List StreamResponse × Bool :=
  match a with
  | .ok deltas =>
    (deltas.map chunkEvent ++ [{ message := "", isComplete := true }], true)
  | .fail deltas =>
    (deltas.map chunkEvent ++
      [{ message := "Error processing message re-trying", isError := false }], false)

/-- The retry loop of `streamResponse` (`src/unnamed/part_001`, lines
176-216): up to `retryCount` attempts, stopping at the first success; if
none succeeds, exactly one terminal `isError: true` event is sent.
`attempts i` is the outcome of the `i`-th provider call. -/
def streamResponseLoop (attempts : Nat → AttemptOutcome) (i : Nat) :
    Nat → List StreamResponse
  | 0 => [{ message := "Error processing message. Please try again later.", isError := true }]
  | n + 1 =>
    let r := processStream (attempts i)
    if r.2 then r.1 else r.1 ++ streamResponseLoop attempts (i + 1) n

/-- `ExploreModeAnthropicProvider.streamResponse`, restricted to the events
it writes to the response. -/
def streamResponse (attempts : Nat → AttemptOutcome) (retryCount : Nat) :
    List StreamResponse :=
  streamResponseLoop attempts 0 retryCount

/-- The attempt oracle of the claim-C2 scenario: every call fails after one
delta. -/
def c2Attempts : Nat → AttemptOutcome := fun _ => .fail ["hi"]

/-- An event that the frontend's SSE reader treats as a valid chunk
(`api.ts`: neither `isComplete` nor `isError`, nonempty `message` passed to
`onChunk`). -/
def isSurfacedChunk (e : StreamResponse) : Bool :=
  !e.isComplete && !e.isError && e.message ≠ ""

/-! ## Connection timeout of `sendChatMessage` (`src/unnamed/part_003`) -/

/-- The hardcoded `60 * 1000` ms window. -/
def connectionTimeoutMs : Nat := 60 * 1000

/-- The `setTimeout` guard fires iff no data chunk has been read when the
timer expires: `hasReceivedMessage` is set (and the timer cleared) by the
first successful `reader.read()` of data.  `firstChunkAt` is the arrival
time of the first data chunk, `none` when no data ever arrives. -/
def connectionTimeoutFires (firstChunkAt : Option Nat) : Bool :=
  match firstChunkAt with
  | none => true
  | some t => connectionTimeoutMs ≤ t

inductive ChatCallOutcome where
  | errored
  | completed
  | waiting
deriving DecidableEq, Repr

/-- The caller-visible outcome of `sendChatMessage` (lines 71-125): if the
guard fires, `onError` is called and the reader cancelled; otherwise the
timer has been cleared by the first chunk, and the caller sees `onComplete`
iff the stream eventually closes — a stream that stalls after its first
chunk leaves the caller waiting with no further guard. -/
def sendChatMessageOutcome (firstChunkAt : Option Nat) (streamCloses : Bool) :
    ChatCallOutcome :=
  if connectionTimeoutFires firstChunkAt then .errored
  else if streamCloses then .completed
  else .waiting

/-! ## Admission guard of `handleExploreMessage` -/

/-- The refs of `useExploreChat` involved in turn admission, plus a count
of model calls currently in flight (a `sendExploreChatMessage` whose
completion/error callback has not run yet). -/
structure ExploreChatState where
  isProcessing : Bool
  activeMessageId : Option Nat
  isChatStreaming : Bool
  outstandingModelCalls : Nat
deriving DecidableEq, Repr

/-- `handleExploreMessage` (`messagePatterns.ts`, lines 749-801), reduced
to its admission effect: when `isProcessing` is set the call returns
immediately, touching nothing and issuing no model call; otherwise it takes
the guard, records the new message id, flips the streaming flag and issues
exactly one model call. -/
def handleExploreMessage (s : ExploreChatState) (messageId : Nat) : ExploreChatState :=
  if s.isProcessing then s
  else
    { isProcessing := true
      activeMessageId := some messageId
      isChatStreaming := true
      outstandingModelCalls := s.outstandingModelCalls + 1 }

/-- A turn-lifecycle event: a `startTurn` request, or the completion/error
callback of the in-flight call (`handleMessageCompletion` and
`handleError` both clear `isProcessing` when they run). -/
inductive ChatEvent where
  | startTurn (messageId : Nat)
  | turnCompleted
  | turnErrored
deriving DecidableEq, Repr

def finishTurn (s : ExploreChatState) : ExploreChatState :=
  { s with isProcessing := false, outstandingModelCalls := s.outstandingModelCalls - 1 }

def chatStep (s : ExploreChatState) (e : ChatEvent) : ExploreChatState :=
  match e with
  | .startTurn m => handleExploreMessage s m
  | .turnCompleted => finishTurn s
  | .turnErrored => finishTurn s

def chatInitState : ExploreChatState :=
  { isProcessing := false, activeMessageId := none, isChatStreaming := false,
    outstandingModelCalls := 0 }

def chatRun (events : List ChatEvent) : ExploreChatState :=
  events.foldl chatStep chatInitState

/-! # Theorems

Helper lemmas first, then one theorem per claim (with its witness or
counterexample where required).
-/

/-! ## Queue helpers -/

theorem find_replace_eq (q : List (String × List ExploreQueueItem)) (url : String)
    (items : List ExploreQueueItem) :
    List.find? (fun p => p.1 == url)
        (q.map (fun p => if p.1 == url then (p.1, items) else p)) =
      (List.find? (fun p => p.1 == url) q).map (fun p => (p.1, items)) := by
  induction q with
  | nil => rfl
  | cons p q ih =>
    cases hp : (p.1 == url) with
    | true =>
      rw [List.map_cons, if_pos hp]
      simp [List.find?, hp]
    | false =>
      rw [List.map_cons, if_neg (show ¬ ((p.1 == url) = true) by simp [hp])]
      simp only [List.find?, hp]
      exact ih

theorem queueLookup_queueSet (q : List (String × List ExploreQueueItem)) (url : String)
    (items : List ExploreQueueItem) : queueLookup (queueSet q url items) url = items := by
  unfold queueSet
  rcases ho : q.find? (fun p => p.1 == url) with _ | p0
  · rw [ho]
    simp only [Option.isSome_none, Bool.false_eq_true, if_false]
    unfold queueLookup
    rw [List.find?_append, ho]
    simp
  · rw [ho]
    simp only [Option.isSome_some, if_true]
    unfold queueLookup
    rw [find_replace_eq, ho]
    rfl

/-! ## C1: frontier dequeue order -/

/-- C1 (amended): `getNextToExplore` only ever pops from the *first*
visited route, FIFO within it (so it never returns an item of a route
while an earlier-visited route has unconsumed items — there are none
earlier); and it returns `none` whenever the first visited route's queue
is empty, even if later routes still hold items. -/
theorem getNextToExplore_first_route_only :
    (∀ (s : ExploreSessionState) (item : ExploreQueueItem) (s2 : ExploreSessionState),
        getNextToExplore s = (some item, s2) →
        ∃ route rest, s.exploreRoute.head? = some route ∧
          queueLookup s.exploreQueue route = item :: rest ∧
          s2.exploreQueue = queueSet s.exploreQueue route rest ∧
          s2.currentlyExploring = some ⟨route, item.id, item.nodeId, item.text⟩) ∧
    (∀ (s : ExploreSessionState) (route : String),
        s.exploreRoute.head? = some route → queueLookup s.exploreQueue route = [] →
        getNextToExplore s = (none, s)) := by
  constructor
  · intro s item s2 h
    unfold getNextToExplore at h
    rcases hh : s.exploreRoute.head? with _ | route
    · rw [hh] at h
      exact absurd h (by simp)
    · rw [hh] at h
      dsimp only at h
      rcases hq : queueLookup s.exploreQueue route with _ | ⟨it, rest⟩
      · rw [hq] at h
        exact absurd h (by simp)
      · rw [hq] at h
        dsimp only at h
        simp only [Prod.mk.injEq, Option.some.injEq] at h
        obtain ⟨h1, h2⟩ := h
        subst h1
        refine ⟨route, rest, rfl, hq, ?_, ?_⟩
        · rw [← h2]
        · rw [← h2]
  · intro s route h1 h2
    unfold getNextToExplore
    rw [h1]
    dsimp only
    rw [h2]

theorem getNextToExplore_first_route_only_witness :
    ∃ route rest, traceS1.exploreRoute.head? = some route ∧
      queueLookup traceS1.exploreQueue route = traceItem1 :: rest ∧
      traceS2.exploreQueue = queueSet traceS1.exploreQueue route rest ∧
      traceS2.currentlyExploring =
        some ⟨route, traceItem1.id, traceItem1.nodeId, traceItem1.text⟩ :=
  getNextToExplore_first_route_only.1 traceS1 traceItem1 traceS2 (by decide)

/-- C1 counterexample: a real trace (discover `https://x/a`, dequeue and
drain its only item, then discover `https://x/b`) after which the oldest
*still-nonempty* route is `https://x/b`, yet `getNextToExplore` returns
`none` because the first visited route `https://x/a` is drained —
contradicting "it selects the oldest still-nonempty route in
visited-routes order". -/
theorem getNextToExplore_skips_later_nonempty_route :
    (getNextToExplore traceS3).1 = none ∧
    oldestNonemptyRoute traceS3 = some "https://x/b" ∧
    queueLookup traceS3.exploreQueue "https://x/b" ≠ [] := by decide

/-! ## C2: retry loop events -/

theorem streamResponseLoop_all_fail (n : Nat) :
    ∀ (i : Nat) (attempts : Nat → AttemptOutcome),
      (∀ j, j < n → ∃ ds, attempts (i + j) = AttemptOutcome.fail ds) →
      ((streamResponseLoop attempts i n).filter (·.isError)).length = 1 ∧
      ((streamResponseLoop attempts i n).filter (·.isComplete)).length = 0 ∧
      (streamResponseLoop attempts i n).getLast? =
        some { message := "Error processing message. Please try again later.", isError := true } := by
  induction n with
  | zero =>
    intro i attempts _
    refine ⟨?_, ?_, ?_⟩ <;> simp [streamResponseLoop, List.filter]
  | succ n ih =>
    intro i attempts h
    obtain ⟨ds, hds⟩ := h 0 (Nat.succ_pos n)
    have hstep : streamResponseLoop attempts i (n + 1) =
        (ds.map chunkEvent ++
          [{ message := "Error processing message re-trying", isError := false }]) ++
        streamResponseLoop attempts (i + 1) n := by
      simp only [streamResponseLoop]
      rw [show i + 0 = i from rfl] at hds
      rw [hds]
      simp [processStream]
    have hrec := ih (i + 1) attempts (by
      intro j hj
      have := h (j + 1) (Nat.succ_lt_succ hj)
      rwa [show i + (j + 1) = i + 1 + j by omega] at this)
    have hmapErr : (ds.map chunkEvent).filter (·.isError) = [] := by
      rw [List.filter_map]
      have : ((fun e : StreamResponse => e.isError) ∘ chunkEvent) = fun _ => false := rfl
      rw [this]
      simp
    have hmapCmp : (ds.map chunkEvent).filter (·.isComplete) = [] := by
      rw [List.filter_map]
      have : ((fun e : StreamResponse => e.isComplete) ∘ chunkEvent) = fun _ => false := rfl
      rw [this]
      simp
    refine ⟨?_, ?_, ?_⟩
    · rw [hstep, List.filter_append, List.filter_append, hmapErr]
      simpa [List.filter] using hrec.1
    · rw [hstep, List.filter_append, List.filter_append, hmapCmp]
      simpa [List.filter] using hrec.2.1
    · rw [hstep, List.getLast?_append, hrec.2.2]
      rfl

/-- C2 (amended): if every one of the configured number of attempts fails,
`streamResponse` retries at most that many times and then surfaces exactly
one terminal `isError` event — the last event — and zero completion
events.  (The further conjunct of the original claim, that no chunk events
of a failed attempt are surfaced between attempts, is refuted by
`streamResponse_surfaces_failed_attempt_chunks`.) -/
theorem streamResponse_all_fail_single_error (attempts : Nat → AttemptOutcome)
    (retryCount : Nat) (h : ∀ i, i < retryCount → ∃ ds, attempts i = AttemptOutcome.fail ds) :
    ((streamResponse attempts retryCount).filter (·.isError)).length = 1 ∧
    ((streamResponse attempts retryCount).filter (·.isComplete)).length = 0 ∧
    (streamResponse attempts retryCount).getLast? =
      some { message := "Error processing message. Please try again later.", isError := true } := by
  unfold streamResponse
  exact streamResponseLoop_all_fail retryCount 0 attempts (by
    intro j hj
    simpa using h j hj)

theorem streamResponse_all_fail_single_error_witness :
    ((streamResponse c2Attempts 3).filter (·.isError)).length = 1 ∧
    ((streamResponse c2Attempts 3).filter (·.isComplete)).length = 0 ∧
    (streamResponse c2Attempts 3).getLast? =
      some { message := "Error processing message. Please try again later.", isError := true } :=
  streamResponse_all_fail_single_error c2Attempts 3
    (fun _ _ => ⟨["hi"], rfl⟩)

/-- C2 counterexample: with a retry budget of 3 and every attempt failing
after one delta `"hi"`, the deltas of the failed attempts *and* one
non-error retry notice per attempt are all written to the response; the
frontend chunk handler (`api.ts`) treats every one of these six events as
a valid chunk, refuting "no chunk events from a failed attempt are
surfaced as valid output between attempts". -/
theorem streamResponse_surfaces_failed_attempt_chunks :
    streamResponse c2Attempts 3 =
      [chunkEvent "hi", { message := "Error processing message re-trying" },
       chunkEvent "hi", { message := "Error processing message re-trying" },
       chunkEvent "hi", { message := "Error processing message re-trying" },
       { message := "Error processing message. Please try again later.", isError := true }] ∧
    ((streamResponse c2Attempts 3).filter isSurfacedChunk).length = 6 := by decide

/-! ## C5: admission guard -/

/-- C5: while `isProcessing` is set, a second `handleExploreMessage` is a
complete no-op — the state (including the outstanding-call count) is
unchanged and no model call is issued; consequently, over any sequence of
turn-lifecycle events, at most one model call is ever in flight. -/
theorem handleExploreMessage_single_flight :
    (∀ (s : ExploreChatState) (m : Nat), s.isProcessing = true →
        handleExploreMessage s m = s) ∧
    (∀ events : List ChatEvent, (chatRun events).outstandingModelCalls ≤ 1) := by
  have hnoop : ∀ (s : ExploreChatState) (m : Nat), s.isProcessing = true →
      handleExploreMessage s m = s := by
    intro s m h
    unfold handleExploreMessage
    rw [h]
    simp
  refine ⟨hnoop, ?_⟩
  have key : ∀ (evs : List ChatEvent) (s : ExploreChatState),
      s.outstandingModelCalls ≤ 1 →
      (s.isProcessing = false → s.outstandingModelCalls = 0) →
      (evs.foldl chatStep s).outstandingModelCalls ≤ 1 ∧
        ((evs.foldl chatStep s).isProcessing = false →
          (evs.foldl chatStep s).outstandingModelCalls = 0) := by
    intro evs
    induction evs with
    | nil => intro s h1 h2; exact ⟨h1, h2⟩
    | cons e rest ih =>
      intro s h1 h2
      rw [List.foldl_cons]
      apply ih
      · cases e with
        | startTurn m =>
          by_cases hp : s.isProcessing = true
          · rw [show chatStep s (ChatEvent.startTurn m) = s from hnoop s m hp]
            exact h1
          · simp only [Bool.not_eq_true] at hp
            have h0 := h2 hp
            simp [chatStep, handleExploreMessage, hp, h0]
        | turnCompleted => simp only [chatStep, finishTurn]; omega
        | turnErrored => simp only [chatStep, finishTurn]; omega
      · cases e with
        | startTurn m =>
          by_cases hp : s.isProcessing = true
          · rw [show chatStep s (ChatEvent.startTurn m) = s from hnoop s m hp]
            exact h2
          · simp only [Bool.not_eq_true] at hp
            have h0 := h2 hp
            simp [chatStep, handleExploreMessage, hp, h0]
        | turnCompleted =>
          simp only [chatStep, finishTurn]
          intro
          omega
        | turnErrored =>
          simp only [chatStep, finishTurn]
          intro
          omega
  intro events
  exact (key events chatInitState (by decide) (fun _ => by decide)).1

theorem handleExploreMessage_single_flight_witness :
    handleExploreMessage
      { isProcessing := true, activeMessageId := some 7, isChatStreaming := true,
        outstandingModelCalls := 1 } 8 =
      { isProcessing := true, activeMessageId := some 7, isChatStreaming := true,
        outstandingModelCalls := 1 } :=
  handleExploreMessage_single_flight.1
    { isProcessing := true, activeMessageId := some 7, isChatStreaming := true,
      outstandingModelCalls := 1 } 8 rfl

/-! ## C8: missing current URL leaves everything untouched -/

/-- C8: when the driver cannot report a current URL (the query returns
`null` or the empty string), the turn produces no new page: the session
state — graph nodes, edges, frontier queue and visited routes — is
returned completely unchanged, and no explored output is reported. -/
theorem processExploreOutput_no_url_no_mutation
    (s : ExploreSessionState) (e0 : ClickableElement) (es : List ClickableElement)
    (resp : String) (parent : Option ExploreParentRef) (img : Option String) :
    processExploreOutput s (e0 :: es) resp parent none img = (s, none) ∧
    processExploreOutput s (e0 :: es) resp parent (some "") img = (s, none) := by
  constructor <;> simp [processExploreOutput]

/-! ## C9: connection timeout guard -/

/-- C9 (amended): the 60-second connection timeout fires only when *no*
data at all has arrived within the window: with no first chunk (or a first
chunk at or after 60 s) the caller gets the error outcome; once a first
chunk arrives before the window closes, the guard is cleared — the call
completes iff the stream closes, and a stream that stalls after its first
chunk leaves the caller waiting with no further timeout. -/
theorem sendChatMessage_timeout_only_before_first_chunk :
    (∀ closes : Bool, sendChatMessageOutcome none closes = .errored) ∧
    (∀ (t : Nat) (closes : Bool), connectionTimeoutMs ≤ t →
        sendChatMessageOutcome (some t) closes = .errored) ∧
    (∀ t : Nat, t < connectionTimeoutMs → sendChatMessageOutcome (some t) true = .completed) ∧
    (∀ t : Nat, t < connectionTimeoutMs → sendChatMessageOutcome (some t) false = .waiting) := by
  refine ⟨?_, ?_, ?_, ?_⟩
  · intro closes
    simp [sendChatMessageOutcome, connectionTimeoutFires]
  · intro t closes h
    simp [sendChatMessageOutcome, connectionTimeoutFires, h]
  · intro t h
    have : ¬ (connectionTimeoutMs ≤ t) := by omega
    simp [sendChatMessageOutcome, connectionTimeoutFires, this]
  · intro t h
    have : ¬ (connectionTimeoutMs ≤ t) := by omega
    simp [sendChatMessageOutcome, connectionTimeoutFires, this]

theorem sendChatMessage_timeout_only_before_first_chunk_witness :
    sendChatMessageOutcome (some 59999) false = .waiting :=
  sendChatMessage_timeout_only_before_first_chunk.2.2.2 59999 (by decide)

/-- C9 counterexample: a stream that delivers its first chunk immediately
and then stalls forever is never aborted — the caller is left waiting with
neither an error nor a completion event, refuting "a timeout guard,
independent of streaming progress, ... so the caller is never left waiting
indefinitely". -/
theorem sendChatMessage_stall_leaves_caller_waiting :
    sendChatMessageOutcome (some 0) false = .waiting ∧
    ChatCallOutcome.waiting ≠ ChatCallOutcome.errored ∧
    ChatCallOutcome.waiting ≠ ChatCallOutcome.completed := by decide

/-! ## C10: self-parenting of orphan frontier items -/

/-- C10: every frontier item that `handleQueueUpdate` enqueues when no
parent is supplied is self-parented — its `parent.url`, `parent.nodeId`
and `parent.id` equal the item's own `url`, `nodeId` and freshly generated
element id. -/
theorem handleQueueUpdate_no_parent_self_parented
    (elements : List ClickableElement) (s : ExploreSessionState)
    (resp url : String) (nodeId : Nat) (item : ExploreQueueItem)
    (hmem : item ∈ queueLookup (handleQueueUpdate s elements resp url nodeId none).exploreQueue url) :
    item ∈ queueLookup s.exploreQueue url ∨
      (item.parent.url = item.url ∧ item.parent.nodeId = item.nodeId ∧
        item.parent.id = item.id) := by
  unfold handleQueueUpdate at hmem
  induction elements generalizing s with
  | nil => exact Or.inl hmem
  | cons e es ih =>
    rw [List.foldl_cons] at hmem
    by_cases he : e.text ≠ "" ∧ e.coordinates ≠ ""
    · rw [if_pos he] at hmem
      rcases ih _ hmem with hl | hr
      · dsimp only at hl
        rw [queueLookup_queueSet] at hl
        rcases List.mem_append.mp hl with hl2 | hl2
        · exact Or.inl hl2
        · rw [List.mem_singleton] at hl2
          subst hl2
          exact Or.inr ⟨rfl, rfl, rfl⟩
      · exact Or.inr hr
    · rw [if_neg he] at hmem
      exact ih _ hmem

theorem handleQueueUpdate_no_parent_self_parented_witness :
    traceItem1 ∈ queueLookup exploreInitState.exploreQueue "https://x/a" ∨
      (traceItem1.parent.url = traceItem1.url ∧
        traceItem1.parent.nodeId = traceItem1.nodeId ∧
        traceItem1.parent.id = traceItem1.id) :=
  handleQueueUpdate_no_parent_self_parented [elemA1]
    { exploreInitState with exploreQueue := [("https://x/a", [])], nextId := 1 }
    "respA" "https://x/a" 0 traceItem1 (by decide)

/-! ## Graph helpers for C6 and C7 -/

theorem find_label_map_edge (l : List GraphNode) (src eid : Nat) (url : String) :
    (l.map (fun n => if n.id == src then { n with edges := n.edges ++ [eid] } else n)).find?
        (fun n => n.label == url) =
      (l.find? (fun n => n.label == url)).map
        (fun n => if n.id == src then { n with edges := n.edges ++ [eid] } else n) := by
  rw [List.find?_map]
  have hp : ((fun n : GraphNode => n.label == url) ∘
      (fun n => if n.id == src then { n with edges := n.edges ++ [eid] } else n)) =
      (fun n : GraphNode => n.label == url) := by
    funext n
    by_cases hn : (n.id == src) = true <;> simp [Function.comp, hn]
  rw [hp]

theorem filter_label_map_edge (l : List GraphNode) (src eid : Nat) (url : String) :
    ((l.map (fun n => if n.id == src then { n with edges := n.edges ++ [eid] } else n)).filter
        (fun n => n.label == url)).length =
      (l.filter (fun n => n.label == url)).length := by
  rw [List.filter_map]
  have hp : ((fun n : GraphNode => n.label == url) ∘
      (fun n => if n.id == src then { n with edges := n.edges ++ [eid] } else n)) =
      (fun n : GraphNode => n.label == url) := by
    funext n
    by_cases hn : (n.id == src) = true <;> simp [Function.comp, hn]
  rw [hp, List.length_map]

/-- `handleEdgeAndNodeCreation` on a URL with no node yet: a fresh node id
is drawn, the node is appended, and — iff an item is currently being
explored — exactly one edge is appended from that item's node to the new
node, labelled with the item's descriptor text. -/
theorem handleEdgeAndNodeCreation_fresh (s : ExploreSessionState) (url : String)
    (img : Option String) (hfind : s.nodes.find? (fun n => n.label == url) = none) :
    handleEdgeAndNodeCreation s url img =
      (s.nextId,
        match s.currentlyExploring with
        | some ce =>
          { s with
            nextId := s.nextId + 1
            nodes := (s.nodes ++ [GraphNode.mk s.nextId url (processImageData img) []]).map
              (fun n => if n.id == ce.nodeId then { n with edges := n.edges ++ [ce.id] } else n)
            edges := s.edges ++ [GraphEdge.mk ce.id ce.nodeId s.nextId ce.label] }
        | none =>
          { s with
            nextId := s.nextId + 1
            nodes := s.nodes ++ [GraphNode.mk s.nextId url (processImageData img) []] }) := by
  unfold handleEdgeAndNodeCreation createEdgeOrNode
  rw [hfind]
  dsimp only
  cases s.currentlyExploring with
  | none => rfl
  | some ce => rfl

/-- `handleEdgeAndNodeCreation` on a URL whose node already exists: the
existing node's id is returned, no node is created (the image-backfill
branch is unreachable since a found node implies a nonempty node list),
and — iff an item is currently being explored — exactly one edge is
appended. -/
theorem handleEdgeAndNodeCreation_existing (s : ExploreSessionState) (url : String)
    (img : Option String) (n0 : GraphNode)
    (hfind : s.nodes.find? (fun n => n.label == url) = some n0) :
    handleEdgeAndNodeCreation s url img =
      (n0.id,
        match s.currentlyExploring with
        | some ce => createEdge s ce.nodeId n0.id ce.id ce.label
        | none => s) := by
  have hne : s.nodes.isEmpty = false := by
    have hmem : n0 ∈ s.nodes := List.mem_of_find?_eq_some hfind
    cases hs : s.nodes with
    | nil => rw [hs] at hmem; exact absurd hmem (List.not_mem_nil n0)
    | cons a l => rfl
  unfold handleEdgeAndNodeCreation createEdgeOrNode
  rw [hfind]
  dsimp only
  rw [hne]
  cases s.currentlyExploring with
  | none => rfl
  | some ce => rfl

/-- `handleQueueUpdate` only touches the frontier queue and the fresh-id
counter: graph nodes, edges and the in-flight pointer are untouched. -/
theorem handleQueueUpdate_graph_frozen (elements : List ClickableElement)
    (s : ExploreSessionState) (resp url : String) (nodeId : Nat)
    (parent : Option ExploreParentRef) :
    (handleQueueUpdate s elements resp url nodeId parent).nodes = s.nodes ∧
    (handleQueueUpdate s elements resp url nodeId parent).edges = s.edges ∧
    (handleQueueUpdate s elements resp url nodeId parent).currentlyExploring =
      s.currentlyExploring := by
  unfold handleQueueUpdate
  induction elements generalizing s with
  | nil => exact ⟨rfl, rfl, rfl⟩
  | cons e es ih =>
    rw [List.foldl_cons]
    by_cases he : e.text ≠ "" ∧ e.coordinates ≠ ""
    · rw [if_pos he]
      exact ih _
    · rw [if_neg he]
      exact ih _

/-! ## C6: node upsert idempotence -/

/-- C6: recording the same URL twice returns the same node id both times,
the graph then contains exactly one node for that URL, and the repeated
upsert creates no new node. -/
theorem handleEdgeAndNodeCreation_idempotent (s : ExploreSessionState) (url : String)
    (img1 img2 : Option String)
    (h : s.nodes.filter (fun n => n.label == url) = []) :
    ((handleEdgeAndNodeCreation (handleEdgeAndNodeCreation s url img1).2 url img2).1 =
      (handleEdgeAndNodeCreation s url img1).1) ∧
    (((handleEdgeAndNodeCreation (handleEdgeAndNodeCreation s url img1).2 url img2).2.nodes.filter
        (fun n => n.label == url)).length = 1) ∧
    ((handleEdgeAndNodeCreation (handleEdgeAndNodeCreation s url img1).2 url img2).2.nodes.length =
      (handleEdgeAndNodeCreation s url img1).2.nodes.length) := by
  have hfind : s.nodes.find? (fun n => n.label == url) = none :=
    List.find?_eq_none.mpr (fun x hx => List.filter_eq_nil_iff.mp h x hx)
  have hcount : ((s.nodes ++ [GraphNode.mk s.nextId url (processImageData img1) []]).filter
      (fun n => n.label == url)).length = 1 := by
    rw [List.filter_append, h]
    simp
  have hbase : (s.nodes ++ [GraphNode.mk s.nextId url (processImageData img1) []]).find?
      (fun n => n.label == url) = some (GraphNode.mk s.nextId url (processImageData img1) []) := by
    rw [List.find?_append, hfind]
    simp
  rw [handleEdgeAndNodeCreation_fresh s url img1 hfind]
  cases hce : s.currentlyExploring with
  | none =>
    dsimp only
    rw [handleEdgeAndNodeCreation_existing _ url img2 _ hbase]
    dsimp only [hce]
    exact ⟨rfl, hcount, rfl⟩
  | some ce =>
    dsimp only
    have hfind2 : ((s.nodes ++ [GraphNode.mk s.nextId url (processImageData img1) []]).map
        (fun n => if n.id == ce.nodeId then { n with edges := n.edges ++ [ce.id] } else n)).find?
        (fun n => n.label == url) =
        some ((fun n : GraphNode =>
          if n.id == ce.nodeId then { n with edges := n.edges ++ [ce.id] } else n)
          (GraphNode.mk s.nextId url (processImageData img1) [])) := by
      rw [find_label_map_edge, hbase]
      rfl
    rw [handleEdgeAndNodeCreation_existing _ url img2 _ hfind2]
    dsimp only [hce]
    unfold createEdge
    dsimp only
    refine ⟨?_, ?_, ?_⟩
    · by_cases hid : (s.nextId == ce.nodeId) = true <;> simp [hid]
    · rw [filter_label_map_edge, filter_label_map_edge]
      exact hcount
    · rw [List.length_map, List.length_map]

theorem handleEdgeAndNodeCreation_idempotent_witness :
    ((handleEdgeAndNodeCreation (handleEdgeAndNodeCreation exploreInitState "https://x/a" none).2
        "https://x/a" none).1 =
      (handleEdgeAndNodeCreation exploreInitState "https://x/a" none).1) ∧
    (((handleEdgeAndNodeCreation (handleEdgeAndNodeCreation exploreInitState "https://x/a" none).2
        "https://x/a" none).2.nodes.filter (fun n => n.label == "https://x/a")).length = 1) ∧
    ((handleEdgeAndNodeCreation (handleEdgeAndNodeCreation exploreInitState "https://x/a" none).2
        "https://x/a" none).2.nodes.length =
      (handleEdgeAndNodeCreation exploreInitState "https://x/a" none).2.nodes.length) :=
  handleEdgeAndNodeCreation_idempotent exploreInitState "https://x/a" none none (by decide)

/-! ## C7: edge creation on new-page discovery -/

/-- C7: when a turn establishes a new current URL while a frontier item is
currently being explored, exactly one edge is created, from that item's
node to the newly created node, labelled with the item's descriptor text;
when no item is currently being explored, no edge is created; and the
two-consecutive-discoveries scenario (`https://x/a` via "Login" to
`https://x/b`, twice) yields two nodes and exactly one edge `a → b`
labelled "Login". -/
theorem processExploreOutput_edge_creation :
    (∀ (s : ExploreSessionState) (e0 : ClickableElement) (es : List ClickableElement)
        (resp : String) (parent : Option ExploreParentRef) (url : String)
        (img : Option String) (ce : CurrentlyExploring),
        s.currentlyExploring = some ce →
        (url == "") = false →
        url ∉ cleanCompletedQueue s.exploreRoute s.exploreQueue →
        s.nodes.filter (fun n => n.label == url) = [] →
        (processExploreOutput s (e0 :: es) resp parent (some url) img).1.edges =
          s.edges ++ [GraphEdge.mk ce.id ce.nodeId s.nextId ce.label]) ∧
    (∀ (s : ExploreSessionState) (elements : List ClickableElement) (resp : String)
        (parent : Option ExploreParentRef) (currentUrl : Option String) (img : Option String),
        s.currentlyExploring = none →
        (processExploreOutput s elements resp parent currentUrl img).1.edges = s.edges) ∧
    (traceS4.nodes.map (fun n => n.label) = ["https://x/a", "https://x/b"] ∧
      traceS4.edges = [GraphEdge.mk 1 0 2 "Login"] ∧
      traceS4.nodes.length = 2 ∧ traceS4.edges.length = 1) := by
  refine ⟨?_, ?_, by decide⟩
  · intro s e0 es resp parent url img ce hce hurl hmem hfilter
    have hfind : s.nodes.find? (fun n => n.label == url) = none :=
      List.find?_eq_none.mpr (fun x hx => List.filter_eq_nil_iff.mp hfilter x hx)
    unfold processExploreOutput
    dsimp only
    rw [hurl]
    rw [if_neg (by simp)]
    rw [if_neg hmem]
    dsimp only
    rw [(handleQueueUpdate_graph_frozen _ _ _ _ _ _).2.1]
    rw [handleEdgeAndNodeCreation_fresh _ url img (by exact hfind)]
    dsimp only
    rw [hce]
  · intro s elements resp parent currentUrl img hce
    unfold processExploreOutput
    cases elements with
    | nil => rfl
    | cons e0 es =>
      dsimp only
      cases currentUrl with
      | none => rfl
      | some url =>
        dsimp only
        by_cases hu : (url == "") = true
        · rw [if_pos hu]
        · rw [if_neg hu]
          by_cases hm : url ∈ cleanCompletedQueue s.exploreRoute s.exploreQueue
          · rw [if_pos hm]
          · rw [if_neg hm]
            dsimp only
            rw [(handleQueueUpdate_graph_frozen _ _ _ _ _ _).2.1]
            rcases hf : s.nodes.find? (fun n => n.label == url) with _ | n0
            · rw [handleEdgeAndNodeCreation_fresh _ url img (by exact hf)]
              dsimp only
              rw [hce]
            · rw [handleEdgeAndNodeCreation_existing _ url img n0 (by exact hf)]
              dsimp only
              rw [hce]

theorem processExploreOutput_edge_creation_witness :
    (processExploreOutput traceS2 [elemB1] "respB"
        (traceS2.currentlyExploring.map ceToParent) (some "https://x/b") none).1.edges =
      traceS2.edges ++
        [GraphEdge.mk (CurrentlyExploring.mk "https://x/a" 1 0 "Login").id
          (CurrentlyExploring.mk "https://x/a" 1 0 "Login").nodeId traceS2.nextId
          (CurrentlyExploring.mk "https://x/a" 1 0 "Login").label] :=
  processExploreOutput_edge_creation.1 traceS2 elemB1 [] "respB"
    (traceS2.currentlyExploring.map ceToParent) "https://x/b" none
    (CurrentlyExploring.mk "https://x/a" 1 0 "Login") (by decide) (by decide) (by decide)
    (by decide)

/-! ## Substring-search theory for the parser proofs -/

theorem findSub_of_isPrefixOf {n hay : List Char} (hp : n.isPrefixOf hay = true) :
    findSub n hay = some 0 := by
  cases hay with
  | nil => simp [findSub, hp]
  | cons c hs => simp [findSub, hp]

theorem findSub_cons_of_nonmatch {n : List Char} {c : Char} {hs : List Char}
    (h : n.isPrefixOf (c :: hs) = false) :
    findSub n (c :: hs) = (findSub n hs).map (· + 1) := by
  simp [findSub, h]

theorem isPrefixOf_drop_of_findSub {n hay : List Char} {k : Nat}
    (h : findSub n hay = some k) : n.isPrefixOf (hay.drop k) = true := by
  induction hay generalizing k with
  | nil =>
    by_cases hp : n.isPrefixOf ([] : List Char) = true
    · have h0 := findSub_of_isPrefixOf hp
      rw [h0] at h
      injection h with hk
      subst hk
      simpa using hp
    · unfold findSub at h
      rw [if_neg hp] at h
      exact absurd h (by simp)
  | cons c hs ih =>
    by_cases hp : n.isPrefixOf (c :: hs) = true
    · rw [findSub_of_isPrefixOf hp] at h
      injection h with hk
      subst hk
      simpa using hp
    · have hp2 : n.isPrefixOf (c :: hs) = false := by
        rw [Bool.eq_false_iff]
        exact hp
      rw [findSub_cons_of_nonmatch hp2] at h
      obtain ⟨k2, hk2, hadd⟩ := Option.map_eq_some'.mp h
      subst hadd
      have := ih hk2
      simpa using this

theorem findSub_length_le {n hay : List Char} {k : Nat} (h : findSub n hay = some k) :
    k + n.length ≤ hay.length := by
  have hpre := isPrefixOf_drop_of_findSub h
  rw [ List.isPrefixOf_iff_prefix] at hpre
  have h2 := hpre.length_le
  rw [List.length_drop] at h2
  cases n with
  | nil =>
    have hk : k = 0 := by
      cases hay with
      | nil =>
        simp [findSub, List.isPrefixOf] at h
        omega
      | cons c hs =>
        simp [findSub, List.isPrefixOf] at h
        omega
    subst hk
    simp
  | cons a n2 =>
    rw [List.length_cons] at h2 ⊢
    omega

theorem prefix_of_append_of_le {l s : List Char} (t : List Char) (h : l <+: s ++ t)
    (hl : l.length ≤ s.length) : l <+: s := by
  have h1 : l = (s ++ t).take l.length := List.prefix_iff_eq_take.mp h
  have h2 : (s ++ t).take l.length = s.take l.length := by
    rw [List.take_append_eq_append_take]
    rw [show l.length - s.length = 0 by omega]
    simp
  rw [h1, h2]
  exact List.take_prefix _ _

theorem findSub_append_some {n s : List Char} {k : Nat} (t : List Char)
    (h : findSub n s = some k) : findSub n (s ++ t) = some k := by
  induction s generalizing k with
  | nil =>
    by_cases hp : n.isPrefixOf ([] : List Char) = true
    · have hn : n = [] := by
        cases n with
        | nil => rfl
        | cons a n2 => simp [List.isPrefixOf] at hp
      subst hn
      rw [findSub_of_isPrefixOf hp] at h
      injection h with hk
      subst hk
      exact findSub_of_isPrefixOf (by simp [List.isPrefixOf])
    · unfold findSub at h
      rw [if_neg hp] at h
      exact absurd h (by simp)
  | cons c s2 ih =>
    by_cases hp : n.isPrefixOf (c :: s2) = true
    · rw [findSub_of_isPrefixOf hp] at h
      injection h with hk
      subst hk
      have hp2 : n.isPrefixOf ((c :: s2) ++ t) = true := by
        rw [ List.isPrefixOf_iff_prefix] at hp ⊢
        exact hp.trans (List.prefix_append _ t)
      exact findSub_of_isPrefixOf hp2
    · have hp2 : n.isPrefixOf (c :: s2) = false := by
        rw [Bool.eq_false_iff]
        exact hp
      rw [findSub_cons_of_nonmatch hp2] at h
      obtain ⟨k2, hk2, hadd⟩ := Option.map_eq_some'.mp h
      subst hadd
      have hlen : n.length ≤ s2.length := by
        have hb := findSub_length_le hk2
        omega
      have hp3 : n.isPrefixOf ((c :: s2) ++ t) = false := by
        rw [Bool.eq_false_iff]
        intro hcontra
        apply hp
        rw [ List.isPrefixOf_iff_prefix] at hcontra ⊢
        exact prefix_of_append_of_le t hcontra (by simp; omega)
      rw [List.cons_append, findSub_cons_of_nonmatch (by simpa using hp3), ih hk2]
      rfl

theorem findSub_none_iff {n hay : List Char} :
    findSub n hay = none ↔ ∀ j, n.isPrefixOf (hay.drop j) = false := by
  induction hay with
  | nil =>
    constructor
    · intro h j
      by_cases hp : n.isPrefixOf ([] : List Char) = true
      · rw [findSub_of_isPrefixOf hp] at h
        exact absurd h (by simp)
      · rw [List.drop_nil]
        rw [Bool.eq_false_iff]
        exact hp
    · intro h
      unfold findSub
      rw [if_neg (by rw [show n.isPrefixOf ([] : List Char) = false from by
        simpa using h 0]; simp)]
  | cons c hs ih =>
    constructor
    · intro h j
      by_cases hp : n.isPrefixOf (c :: hs) = true
      · rw [findSub_of_isPrefixOf hp] at h
        exact absurd h (by simp)
      · have hp2 : n.isPrefixOf (c :: hs) = false := by
          rw [Bool.eq_false_iff]
          exact hp
        rw [findSub_cons_of_nonmatch hp2] at h
        have hnone : findSub n hs = none := by
          rcases hfs : findSub n hs with _ | k
          · rfl
          · rw [hfs] at h
            exact absurd h (by simp)
        cases j with
        | zero => simpa using hp2
        | succ j2 => simpa using (ih.mp hnone) j2
    · intro h
      have hp2 : n.isPrefixOf (c :: hs) = false := by simpa using h 0
      rw [findSub_cons_of_nonmatch hp2]
      rw [ih.mpr (fun j => by simpa using h (j + 1))]
      rfl

theorem wsOnly_drop {w : List Char} (hw : wsOnly w) (m : Nat) : wsOnly (w.drop m) :=
  fun c hc => hw c (List.mem_of_mem_drop hc)

/-! ## Earliest-tag selection lemmas -/

theorem prefix_total_of_append {a b : List Char} (r : List Char) (h : b <+: a ++ r) :
    b <+: a ∨ a <+: b := by
  by_cases hl : b.length ≤ a.length
  · exact Or.inl (prefix_of_append_of_le r h hl)
  · right
    push_neg at hl
    have hb : b = (a ++ r).take b.length := List.prefix_iff_eq_take.mp h
    rw [List.prefix_iff_eq_take, hb, List.take_take, Nat.min_eq_left (by omega)]
    exact (List.take_left a r).symm

theorem foldl_min_eq (xs : List (TagPair × Nat)) (z : TagPair × Nat) :
    ∀ (x : TagPair × Nat), (z = x ∨ z ∈ xs) → z.2 ≤ x.2 → (∀ y ∈ xs, z.2 ≤ y.2) →
      (x.2 = z.2 → x = z) → (∀ y ∈ xs, y.2 = z.2 → y = z) →
      xs.foldl (fun mn curr => if curr.2 < mn.2 then curr else mn) x = z := by
  induction xs with
  | nil =>
    intro x hz _ _ _ _
    rcases hz with rfl | h
    · rfl
    · exact absurd h (List.not_mem_nil z)
  | cons y ys ih =>
    intro x hz hminx hmin huniqx huniq
    rw [List.foldl_cons]
    have hy2 : z.2 ≤ y.2 := hmin y (List.mem_cons_self y ys)
    refine ih (if y.2 < x.2 then y else x) ?_ ?_ ?_ ?_ ?_
    · rcases hz with rfl | hz2
      · by_cases hyx : y.2 < z.2
        · have hyz : y = z := huniq y (List.mem_cons_self y ys) (by omega)
          rw [if_pos hyx, hyz]
          exact Or.inl rfl
        · rw [if_neg hyx]
          exact Or.inl rfl
      · rcases List.mem_cons.mp hz2 with rfl | hz3
        · by_cases hyx : z.2 < x.2
          · rw [if_pos hyx]
            exact Or.inl rfl
          · rw [if_neg hyx]
            have : x = z := huniqx (by omega)
            exact Or.inl this.symm
        · exact Or.inr hz3
    · by_cases hyx : y.2 < x.2
      · rw [if_pos hyx]
        exact hy2
      · rw [if_neg hyx]
        exact hminx
    · exact fun y2 hy2m => hmin y2 (List.mem_cons_of_mem y hy2m)
    · by_cases hyx : y.2 < x.2
      · rw [if_pos hyx]
        exact huniq y (List.mem_cons_self y ys)
      · rw [if_neg hyx]
        exact huniqx
    · exact fun y2 hy2m => huniq y2 (List.mem_cons_of_mem y hy2m)

/-! ## Scanner infrastructure lemmas -/

theorem tagPairs_facts : ∀ tp ∈ tagPairs,
    0 < tp.openTag.length ∧ 0 < tp.closeTag.length ∧ tp.openTag.head? = some '<' ∧
      nonWsList tp.openTag ∧ tp.openTag ≠ [] := by
  intro tp htp
  simp only [tagPairs, List.mem_cons, List.not_mem_nil, or_false] at htp
  rcases htp with rfl | rfl | rfl | rfl <;> exact ⟨by decide, by decide, by decide, by decide, by decide⟩

theorem tagPairs_open_incomparable : ∀ tp ∈ tagPairs, ∀ tp2 ∈ tagPairs, tp ≠ tp2 →
    ¬ (tp2.openTag <+: tp.openTag) := by
  intro tp htp tp2 htp2
  simp only [tagPairs, List.mem_cons, List.not_mem_nil, or_false] at htp htp2
  rcases htp with rfl | rfl | rfl | rfl <;> rcases htp2 with rfl | rfl | rfl | rfl <;> decide

theorem foldl_min_mem (l : List (TagPair × Nat)) (acc : TagPair × Nat) :
    l.foldl (fun mn curr => if curr.2 < mn.2 then curr else mn) acc ∈ acc :: l := by
  induction l generalizing acc with
  | nil => exact List.mem_cons_self _ _
  | cons y ys ih =>
    rw [List.foldl_cons]
    rcases List.mem_cons.mp (ih (if y.2 < acc.2 then y else acc)) with h | h
    · rw [h]
      by_cases hy : y.2 < acc.2
      · rw [if_pos hy]
        exact List.mem_cons_of_mem _ (List.mem_cons_self _ _)
      · rw [if_neg hy]
        exact List.mem_cons_self _ _
    · exact List.mem_cons_of_mem _ (List.mem_cons_of_mem _ h)

theorem earliestTag_mem {remaining : List Char} {e : TagPair × Nat}
    (h : earliestTag remaining = some e) : e ∈ tagStarts remaining := by
  unfold earliestTag at h
  rcases hts : tagStarts remaining with _ | ⟨x, xs⟩
  · rw [hts] at h
    exact absurd h (by simp)
  · rw [hts] at h
    injection h with h1
    rw [← h1]
    exact foldl_min_mem xs x

theorem tagStarts_mem_elim {remaining : List Char} {e : TagPair × Nat}
    (h : e ∈ tagStarts remaining) :
    e.1 ∈ tagPairs ∧ findSub e.1.openTag remaining = some e.2 := by
  unfold tagStarts at h
  rw [List.mem_filterMap] at h
  obtain ⟨tp, htp, hf⟩ := h
  rcases hfs : findSub tp.openTag remaining with _ | i
  · rw [hfs] at hf
    exact absurd hf (by simp)
  · rw [hfs] at hf
    simp only [Option.map_some', Option.some.injEq] at hf
    rw [← hf]
    exact ⟨htp, hfs⟩

theorem earliestTag_of_min {full : List Char} {tp : TagPair} {i : Nat}
    (hmem : (tp, i) ∈ tagStarts full)
    (hmin : ∀ y ∈ tagStarts full, i ≤ y.2)
    (huniq : ∀ y ∈ tagStarts full, y.2 = i → y = (tp, i)) :
    earliestTag full = some (tp, i) := by
  unfold earliestTag
  rcases hts : tagStarts full with _ | ⟨x, xs⟩
  · rw [hts] at hmem
    exact absurd hmem (List.not_mem_nil _)
  · rw [hts] at hmem hmin huniq
    have := foldl_min_eq xs (tp, i) x (List.mem_cons.mp hmem)
      (hmin x (List.mem_cons_self x xs)) (fun y hy => hmin y (List.mem_cons_of_mem x hy))
      (fun hx => huniq x (List.mem_cons_self x xs) hx)
      (fun y hy hyv => huniq y (List.mem_cons_of_mem x hy) hyv)
    dsimp only
    rw [this]


theorem parseStep_progress {remaining : List Char} {parts : List MessagePart}
    {next : List Char} (h : parseStep remaining = .ok (.step parts next)) :
    next.length < remaining.length := by
  unfold parseStep at h
  by_cases hre : remaining.isEmpty
  · rw [if_pos hre] at h
    exact absurd h (by simp)
  · rw [if_neg hre] at h
    have hlen : 0 < remaining.length := by
      cases remaining with
      | nil => simp at hre
      | cons c l => simp
    rcases he : earliestTag remaining with _ | e
    · rw [he] at h
      exact absurd h (by simp)
    · rw [he] at h
      dsimp only at h
      have hmem := tagStarts_mem_elim (earliestTag_mem he)
      have hopen : 0 < e.1.openTag.length := (tagPairs_facts e.1 hmem.1).1
      rcases hc : findSubFrom e.1.closeTag remaining (e.2 + e.1.openTag.length) with _ | ci
      · rw [hc] at h
        simp only [Except.ok.injEq, ScanStep.step.injEq] at h
        rw [← h.2, List.length_drop]
        omega
      · rw [hc] at h
        dsimp only at h
        have hcl : 0 < e.1.closeTag.length := (tagPairs_facts e.1 hmem.1).2.1
        rcases hrp : runProcessor e.1.kind
            (jsSlice remaining e.2 (ci + e.1.closeTag.length)) with er | emitted
        · rw [hrp] at h
          exact absurd h (by simp)
        · rw [hrp] at h
          simp only [Except.ok.injEq, ScanStep.step.injEq] at h
          rw [← h.2, List.length_drop]
          omega

theorem parseMessageFuel_congr (bound : Nat) :
    ∀ (l : List Char) (f1 f2 : Nat), l.length ≤ bound → l.length < f1 → l.length < f2 →
      parseMessageFuel f1 l = parseMessageFuel f2 l := by
  induction bound with
  | zero =>
    intro l f1 f2 hb h1 h2
    have hnil : l = [] := List.length_eq_zero.mp (Nat.le_zero.mp hb)
    subst hnil
    cases f1 with
    | zero => omega
    | succ a =>
      cases f2 with
      | zero => omega
      | succ b => rfl
  | succ bound ih =>
    intro l f1 f2 hb h1 h2
    cases f1 with
    | zero => omega
    | succ a =>
      cases f2 with
      | zero => omega
      | succ b =>
        simp only [parseMessageFuel]
        rcases hstep : parseStep l with er | parts | ⟨parts, next⟩
        · rfl
        · rfl
        · dsimp only
          have hnext := parseStep_progress hstep
          have hcg := ih next a b (by omega) (by omega) (by omega)
          rw [hcg]

/-- The loop equation of `parseMessage`: the fuel in the definition is
irrelevant since every iteration strictly shrinks the remaining text. -/
theorem parseMessage_eq_step (l : List Char) :
    parseMessage l =
      match parseStep l with
      | .error er => .error er
      | .ok (.last parts) => .ok parts
      | .ok (.step parts next) => (parseMessage next).map (fun ps => parts ++ ps) := by
  unfold parseMessage
  simp only [parseMessageFuel]
  rcases hstep : parseStep l with er | parts | ⟨parts, next⟩
  · rfl
  · rfl
  · dsimp only
    have hnext := parseStep_progress hstep
    have hcg := parseMessageFuel_congr next.length next l.length (next.length + 1)
      (Nat.le_refl _) (by omega) (by omega)
    rw [hcg]
    simp only [parseMessageFuel]

/-! ## Occurrence analysis for substring search -/

theorem isPrefixOf_false_of_head_ne {n l : List Char} {a b : Char}
    (hn : n.head? = some a) (hl : l.head? = some b) (hne : a ≠ b) :
    n.isPrefixOf l = false := by
  cases n with
  | nil => simp at hn
  | cons x n2 =>
    cases l with
    | nil => simp at hl
    | cons y l2 =>
      rw [List.head?_cons, Option.some.injEq] at hn hl
      have hxy : (x == y) = false := by
        rw [beq_eq_false_iff_ne, hn, hl]
        exact hne
      simp [List.isPrefixOf, hxy]

theorem head?_drop_append {l X : List Char} {j : Nat} (h : j < l.length) :
    ∃ c ∈ l.drop j, ((l ++ X).drop j).head? = some c := by
  rcases hd : l.drop j with _ | ⟨c, l2⟩
  · have := congrArg List.length hd
    rw [List.length_drop] at this
    simp only [List.length_nil] at this
    omega
  · refine ⟨c, ?_, ?_⟩
    · exact List.mem_cons_self c l2
    · rw [List.drop_append_eq_append_drop, show j - l.length = 0 by omega,
        List.drop_zero, hd]
      rfl

theorem head?_append_of_some {l X : List Char} {a : Char} (h : l.head? = some a) :
    (l ++ X).head? = some a := by
  cases l with
  | nil => simp at h
  | cons c l2 =>
    rw [List.head?_cons] at h
    rw [List.cons_append, List.head?_cons]
    exact h

/-- `n` occurs nowhere strictly inside `s`, whatever follows `s`. -/
def notOccAll (n s : List Char) : Prop :=
  ∀ (t : List Char) (j : Nat), j < s.length → n.isPrefixOf ((s ++ t).drop j) = false

theorem notOccAll_of_noLt {n s : List Char} (hs : ('<' : Char) ∉ s)
    (hn : n.head? = some '<') : notOccAll n s := by
  intro t j hj
  obtain ⟨c, hcs, hhead⟩ := head?_drop_append (X := t) hj
  exact isPrefixOf_false_of_head_ne hn hhead
    (fun he => hs (he ▸ List.mem_of_mem_drop hcs))

theorem notOccAll_append {n s1 s2 : List Char} (h1 : notOccAll n s1)
    (h2 : notOccAll n s2) : notOccAll n (s1 ++ s2) := by
  intro t j hj
  rw [List.append_assoc]
  by_cases hc : j < s1.length
  · exact h1 (s2 ++ t) j hc
  · push_neg at hc
    rw [List.length_append] at hj
    rw [List.drop_append_eq_append_drop, List.drop_eq_nil_of_le hc, List.nil_append]
    exact h2 t (j - s1.length) (by omega)

theorem notOccAll_lit {n L : List Char} ( _hL : 0 < L.length)
    (h1 : ¬ (L <+: n)) (h2 : ¬ (n <+: L)) (h3 : ('<' : Char) ∉ L.drop 1)
    (hn : n.head? = some '<') : notOccAll n L := by
  intro t j hj
  cases j with
  | zero =>
    rw [List.drop_zero, Bool.eq_false_iff]
    intro hcontra
    rw [ List.isPrefixOf_iff_prefix] at hcontra
    rcases prefix_total_of_append t hcontra with hp | hp
    · exact h2 hp
    · exact h1 hp
  | succ j2 =>
    obtain ⟨c, hcd, hhead⟩ := head?_drop_append (X := t) (show j2 + 1 < L.length from hj)
    have hc1 : c ∈ L.drop 1 := by
      have hdd : L.drop (j2 + 1) = (L.drop 1).drop j2 := by
        rw [List.drop_drop, Nat.add_comm 1 j2]
      rw [hdd] at hcd
      exact List.mem_of_mem_drop hcd
    exact isPrefixOf_false_of_head_ne hn hhead (fun he => h3 (he ▸ hc1))

theorem findSub_shift_of_notOcc {n s t : List Char} (h : notOccAll n s) :
    findSub n (s ++ t) = (findSub n t).map (· + s.length) := by
  induction s with
  | nil =>
    cases h0 : findSub n t with
    | none => simp [h0]
    | some k => simp [h0]
  | cons c s2 ih =>
    have hp : n.isPrefixOf (c :: (s2 ++ t)) = false := by
      have := h t 0 (by simp)
      simpa using this
    rw [List.cons_append, findSub_cons_of_nonmatch hp]
    have h2 : notOccAll n s2 := by
      intro u j hj
      have := h u (j + 1) (by simp only [List.length_cons]; omega)
      simpa using this
    rw [ih h2]
    cases h0 : findSub n t with
    | none => simp [h0]
    | some k =>
      simp only [h0, Option.map_some', List.length_cons]
      rw [Nat.add_assoc]

theorem findSub_noLt_append {n s : List Char} (w : List Char) (hn : n.head? = some '<')
    (hw : ('<' : Char) ∉ w) : findSub n (w ++ s) = (findSub n s).map (· + w.length) :=
  findSub_shift_of_notOcc (notOccAll_of_noLt hw hn)

theorem noLt_of_wsOnly {w : List Char} (hw : wsOnly w) : ('<' : Char) ∉ w := by
  intro hmem
  have := hw '<' hmem
  exact absurd this (by decide)

/-! ## Backtracking-order lemmas for the regex matcher -/

theorem takeWhile_ws_append {w t : List Char} (hw : wsOnly w)
    (ht : ∃ c, t.head? = some c ∧ isWsChar c = false) :
    (w ++ t).takeWhile isWsChar = w := by
  induction w with
  | nil =>
    obtain ⟨c, hc, hcw⟩ := ht
    cases t with
    | nil => simp at hc
    | cons d t2 =>
      rw [List.head?_cons, Option.some.injEq] at hc
      subst hc
      rw [List.nil_append, List.takeWhile_cons, hcw]
      rfl
  | cons a w2 ih =>
    have ha : isWsChar a = true := hw a (List.mem_cons_self a w2)
    rw [List.cons_append, List.takeWhile_cons, ha]
    rw [ih (fun x hx => hw x (List.mem_cons_of_mem a hx))]
    rfl

theorem takeWhile_append_length_lt {l X : List Char} {d : Char}
    (hd : d ∈ l) (hpd : isWsChar d = false) :
    ((l ++ X).takeWhile isWsChar).length < l.length := by
  induction l with
  | nil => exact absurd hd (List.not_mem_nil d)
  | cons a l2 ih =>
    by_cases ha : isWsChar a = true
    · have hd2 : d ∈ l2 := by
        rcases List.mem_cons.mp hd with rfl | h2
        · rw [ha] at hpd
          exact absurd hpd (by decide)
        · exact h2
      rw [List.cons_append, List.takeWhile_cons, ha]
      simp only [if_true, List.length_cons]
      have := ih hd2
      omega
    · rw [List.cons_append, List.takeWhile_cons,
        show isWsChar a = false from by rw [Bool.eq_false_iff]; exact fun h => ha h]
      simp

theorem findSome?_eq_none_of {α β : Type} {l : List α} {f : α → Option β}
    (h : ∀ x ∈ l, f x = none) : l.findSome? f = none := by
  induction l with
  | nil => rfl
  | cons a l2 ih =>
    simp only [List.findSome?]
    rw [h a (List.mem_cons_self a l2)]
    exact ih (fun x hx => h x (List.mem_cons_of_mem a hx))

theorem findSome?_append_left_none {α β : Type} {l1 l2 : List α} {f : α → Option β}
    (h : ∀ x ∈ l1, f x = none) : (l1 ++ l2).findSome? f = l2.findSome? f := by
  induction l1 with
  | nil => rfl
  | cons a t ih =>
    rw [List.cons_append]
    simp only [List.findSome?]
    rw [h a (List.mem_cons_self a t)]
    exact ih (fun x hx => h x (List.mem_cons_of_mem a hx))

theorem findSome?_append_left_some {α β : Type} {l1 l2 : List α} {f : α → Option β} {v : β}
    (h : l1.findSome? f = some v) : (l1 ++ l2).findSome? f = some v := by
  induction l1 with
  | nil => simp [List.findSome?] at h
  | cons a t ih =>
    rw [List.cons_append]
    simp only [List.findSome?] at h ⊢
    cases hfa : f a with
    | none =>
      simp only [hfa] at h ⊢
      exact ih h
    | some u =>
      simp only [hfa] at h ⊢
      exact h

theorem range_findSome?_of {β : Type} {f : Nat → Option β} {k n : Nat} {v : β}
    (hk : k < n) (hnone : ∀ i < k, f i = none) (hv : f k = some v) :
    (List.range n).findSome? f = some v := by
  induction n with
  | zero => omega
  | succ n2 ih =>
    rw [List.range_succ]
    by_cases hc : k < n2
    · exact findSome?_append_left_some (ih hc)
    · have hkn : k = n2 := by omega
      subst hkn
      rw [findSome?_append_left_none (fun x hx => hnone x (List.mem_range.mp hx))]
      simp [List.findSome?, hv]

theorem option_orElse_none {α : Type} {a b : Option α} {v : α} (ha : a = none)
    (hb : b = some v) : (a <|> b) = some v := by
  subst ha
  subst hb
  rfl

theorem mem_of_getLast?_eq {l : List Char} {d : Char} (h : l.getLast? = some d) : d ∈ l := by
  induction l with
  | nil => simp at h
  | cons a t ih =>
    cases t with
    | nil =>
      simp only [List.getLast?_singleton, Option.some.injEq] at h
      rw [h]
      exact List.mem_cons_self d []
    | cons b t2 =>
      rw [List.getLast?_cons_cons] at h
      exact List.mem_cons_of_mem a (ih h)

theorem getLast?_mem_drop {q : List Char} {d : Char} {i : Nat}
    (h : q.getLast? = some d) (hi : i < q.length) : d ∈ q.drop i := by
  have hne : q.drop i ≠ [] := by
    intro h0
    have := congrArg List.length h0
    rw [List.length_drop] at this
    simp only [List.length_nil] at this
    omega
  rcases hgl : (q.drop i).getLast? with _ | y
  · rw [List.getLast?_eq_none_iff] at hgl
    exact absurd hgl hne
  · have hq : q.take i ++ q.drop i = q := List.take_append_drop i q
    have h2 : q.getLast? = some y := by
      rw [← hq, List.getLast?_append, hgl]
      rfl
    rw [h] at h2
    injection h2 with h2
    rw [h2]
    exact mem_of_getLast?_eq hgl

theorem matchSeq_lit {s t : List Char} {rest : List RAtom} {g : Groups} :
    matchSeq (.lit s :: rest) (s ++ t) g = matchSeq rest t g := by
  simp only [matchSeq]
  rw [if_pos (List.isPrefixOf_iff_prefix.mpr (List.prefix_append s t)), List.drop_left]

theorem matchSeq_lit_none {s input : List Char} {rest : List RAtom} {g : Groups}
    (h : s.isPrefixOf input = false) : matchSeq (.lit s :: rest) input g = none := by
  simp [matchSeq, h]

theorem matchSeq_lit_end {s : List Char} {g : Groups} :
    matchSeq [.lit s] s g = some g := by
  have h := @matchSeq_lit s [] [] g
  rw [List.append_nil] at h
  rw [h]
  rfl

theorem matchSeq_wsStar {w t : List Char} {rest : List RAtom} {g g' : Groups}
    (hw : wsOnly w) (ht : ∃ c, t.head? = some c ∧ isWsChar c = false)
    (hcont : matchSeq rest t g = some g') :
    matchSeq (.wsStar :: rest) (w ++ t) g = some g' := by
  simp only [matchSeq, sepSplits]
  rw [takeWhile_ws_append hw ht, List.range_succ_eq_map]
  simp only [List.map_cons, List.findSome?, Nat.sub_zero]
  rw [List.drop_left, hcont]

theorem matchSeq_lazyAny_lit {w c t : List Char} {rest : List RAtom} {g g' : Groups}
    (hw : ('<' : Char) ∉ w) (hc : c.head? = some '<')
    (hcont : matchSeq rest t g = some g') :
    matchSeq (.lazyAny :: .lit c :: rest) (w ++ (c ++ t)) g = some g' := by
  simp only [matchSeq]
  refine range_findSome?_of (k := w.length) ?_ ?_ ?_
  · rw [List.length_append]
    omega
  · intro i hi
    obtain ⟨d, hd, hhead⟩ := head?_drop_append (X := c ++ t) hi
    exact matchSeq_lit_none (isPrefixOf_false_of_head_ne hc hhead
      (fun he => hw (by rw [he]; exact List.mem_of_mem_drop hd)))
  · rw [List.drop_left,
      if_pos (List.isPrefixOf_iff_prefix.mpr (List.prefix_append c t)), List.drop_left]
    exact hcont

theorem matchSeq_lazyGroup_lit {b c t : List Char} {idx : Nat} {rest : List RAtom}
    {g g' : Groups} (hb : ('<' : Char) ∉ b) (hc : c.head? = some '<')
    (hcont : matchSeq rest t ((idx, b) :: g) = some g') :
    matchSeq (.lazyGroup idx :: .lit c :: rest) (b ++ (c ++ t)) g = some g' := by
  simp only [matchSeq]
  refine range_findSome?_of (k := b.length) ?_ ?_ ?_
  · rw [List.length_append]
    omega
  · intro i hi
    obtain ⟨d, hd, hhead⟩ := head?_drop_append (X := c ++ t) hi
    exact matchSeq_lit_none (isPrefixOf_false_of_head_ne hc hhead
      (fun he => hb (by rw [he]; exact List.mem_of_mem_drop hd)))
  · rw [List.drop_left, List.take_left,
      if_pos (List.isPrefixOf_iff_prefix.mpr (List.prefix_append c t)), List.drop_left]
    exact hcont

theorem matchSeq_lazyGroup_ws_lit {q w c t : List Char} {idx : Nat} {rest : List RAtom}
    {g g' : Groups} (hq : ('<' : Char) ∉ q) (hc : c.head? = some '<')
    (hlast : ∃ d, q.getLast? = some d ∧ isWsChar d = false)
    (hcont : matchSeq (.wsStar :: .lit c :: rest) (w ++ (c ++ t)) ((idx, q) :: g) = some g') :
    matchSeq (.lazyGroup idx :: .wsStar :: .lit c :: rest) (q ++ (w ++ (c ++ t))) g
      = some g' := by
  obtain ⟨d, hdl, hdw⟩ := hlast
  simp only [matchSeq]
  refine range_findSome?_of (k := q.length) ?_ ?_ ?_
  · rw [List.length_append]
    omega
  · intro i hi
    have hdrop : (q ++ (w ++ (c ++ t))).drop i = q.drop i ++ (w ++ (c ++ t)) := by
      rw [List.drop_append_eq_append_drop, show i - q.length = 0 by omega, List.drop_zero]
    simp only [matchSeq, sepSplits, hdrop]
    apply findSome?_eq_none_of
    intro j hj
    have hdmem : d ∈ q.drop i := getLast?_mem_drop hdl hi
    have hK := takeWhile_append_length_lt (X := w ++ (c ++ t)) hdmem hdw
    have hjlt : j < (q.drop i).length := by
      simp only [List.mem_map, List.mem_range] at hj
      obtain ⟨j2, _, hj2⟩ := hj
      omega
    obtain ⟨e, he, hhead⟩ := head?_drop_append (X := w ++ (c ++ t)) hjlt
    exact matchSeq_lit_none (isPrefixOf_false_of_head_ne hc hhead
      (fun hee => hq (by
        rw [hee]
        exact List.mem_of_mem_drop (List.mem_of_mem_drop he))))
  · rw [List.drop_left, List.take_left]
    exact hcont

theorem matchSeq_optGroup_skip {sep : SepKind} {o c input : List Char} {idx : Nat}
    {rest : List RAtom} {g g' : Groups} (hno : findSub o input = none)
    (hcont : matchSeq rest input g = some g') :
    matchSeq (.optGroup sep o idx c :: rest) input g = some g' := by
  simp only [matchSeq]
  refine option_orElse_none ?_ hcont
  apply findSome?_eq_none_of
  intro i _
  have hp := findSub_none_iff.mp hno i
  simp [hp]

theorem matchSeq_statusAlt_left {s1 s2 t : List Char} {idx : Nat} {rest : List RAtom}
    {g g' : Groups} (hcont : matchSeq rest t ((idx, s1) :: g) = some g') :
    matchSeq (.statusAlt s1 s2 idx :: rest) (s1 ++ t) g = some g' := by
  simp only [matchSeq]
  rw [if_pos (List.isPrefixOf_iff_prefix.mpr (List.prefix_append s1 t)), List.drop_left,
    hcont]
  rfl

theorem matchSeq_statusAlt_right {s1 s2 t : List Char} {idx : Nat} {rest : List RAtom}
    {g g' : Groups} (h1 : s1.isPrefixOf (s2 ++ t) = false)
    (hcont : matchSeq rest t ((idx, s2) :: g) = some g') :
    matchSeq (.statusAlt s1 s2 idx :: rest) (s2 ++ t) g = some g' := by
  simp only [matchSeq]
  rw [if_neg (by simp [h1]),
    if_pos (List.isPrefixOf_iff_prefix.mpr (List.prefix_append s2 t)), List.drop_left,
    hcont]
  rfl

theorem firstMatchG_at_zero {atoms : List RAtom} {s : List Char} {G : Groups}
    (h : matchSeq atoms s [] = some G) : firstMatchG atoms s = some G := by
  unfold firstMatchG
  refine range_findSome?_of (k := 0) (by omega) (fun i hi => by omega) ?_
  rw [List.drop_zero]
  exact h

/-! ## The scanner on a block and on an unmatched opening tag -/

theorem earliestTag_at (tp : TagPair) (htp : tp ∈ tagPairs) (t s : List Char)
    (ht : ('<' : Char) ∉ t) (hpre : tp.openTag.isPrefixOf s = true) :
    earliestTag (t ++ s) = some (tp, t.length) := by
  have hfacts := tagPairs_facts tp htp
  have hself : findSub tp.openTag (t ++ s) = some t.length := by
    rw [findSub_noLt_append t hfacts.2.2.1 ht, findSub_of_isPrefixOf hpre]
    simp
  have hmemS : (tp, t.length) ∈ tagStarts (t ++ s) := by
    unfold tagStarts
    rw [List.mem_filterMap]
    exact ⟨tp, htp, by rw [hself]; rfl⟩
  have hmin : ∀ y ∈ tagStarts (t ++ s), t.length ≤ y.2 := by
    intro y hy
    obtain ⟨hy1, hy2⟩ := tagStarts_mem_elim hy
    have hfy := tagPairs_facts y.1 hy1
    rw [findSub_noLt_append t hfy.2.2.1 ht] at hy2
    obtain ⟨v, hv1, hv2⟩ := Option.map_eq_some'.mp hy2
    omega
  have huniq : ∀ y ∈ tagStarts (t ++ s), y.2 = t.length → y = (tp, t.length) := by
    intro y hy hyv
    obtain ⟨hy1, hy2⟩ := tagStarts_mem_elim hy
    have hfy := tagPairs_facts y.1 hy1
    rw [findSub_noLt_append t hfy.2.2.1 ht] at hy2
    obtain ⟨v, hv1, hv2⟩ := Option.map_eq_some'.mp hy2
    have hv0 : v = 0 := by omega
    subst hv0
    have hpre2 := isPrefixOf_drop_of_findSub hv1
    rw [List.drop_zero] at hpre2
    rw [ List.isPrefixOf_iff_prefix] at hpre2
    obtain ⟨s2, hs2⟩ := List.isPrefixOf_iff_prefix.mp hpre
    rw [← hs2] at hpre2
    by_cases hcase : y.1 = tp
    · have hyeta : y = (y.1, y.2) := rfl
      rw [hyeta, hcase, hyv]
    · exfalso
      rcases prefix_total_of_append s2 hpre2 with hp1 | hp1
      · exact tagPairs_open_incomparable tp htp y.1 hy1 (fun he => hcase he.symm) hp1
      · exact tagPairs_open_incomparable y.1 hy1 tp htp hcase hp1
  exact earliestTag_of_min hmemS hmin huniq

theorem parse_unmatched_general (tp : TagPair) (htp : tp ∈ tagPairs) (t rest : List Char)
    (ht : ('<' : Char) ∉ t) (hclose : findSub tp.closeTag rest = none) :
    parseMessage (t ++ (tp.openTag ++ rest)) =
      (parseMessage rest).map (fun ps =>
        preTextParts t ++ (MessagePart.textPart tp.openTag :: ps)) := by
  have hfacts := tagPairs_facts tp htp
  have hearliest := earliestTag_at tp htp t (tp.openTag ++ rest) ht
    (List.isPrefixOf_iff_prefix.mpr (List.prefix_append _ _))
  have hne0 : (t ++ (tp.openTag ++ rest)).isEmpty = false := by
    have hnn : t ++ (tp.openTag ++ rest) ≠ [] := by
      intro h0
      have hl0 := congrArg List.length h0
      rw [List.length_append, List.length_append] at hl0
      simp only [List.length_nil] at hl0
      have ho := hfacts.1
      omega
    cases hL : t ++ (tp.openTag ++ rest) with
    | nil => exact absurd hL hnn
    | cons a l => rfl
  have hdropOpen : (t ++ (tp.openTag ++ rest)).drop (t.length + tp.openTag.length) =
      rest := by
    rw [List.drop_append]
    exact List.drop_left tp.openTag rest
  have hcloseNone : findSubFrom tp.closeTag (t ++ (tp.openTag ++ rest))
      (t.length + tp.openTag.length) = none := by
    unfold findSubFrom
    rw [hdropOpen, hclose]
    rfl
  have htake : (t ++ (tp.openTag ++ rest)).take t.length = t :=
    List.take_left t (tp.openTag ++ rest)
  have hslice : jsSlice (t ++ (tp.openTag ++ rest)) t.length
      (t.length + tp.openTag.length) = tp.openTag := by
    unfold jsSlice
    rw [List.drop_left t (tp.openTag ++ rest)]
    rw [show t.length + tp.openTag.length - t.length = tp.openTag.length by omega]
    exact List.take_left tp.openTag rest
  have hstep : parseStep (t ++ (tp.openTag ++ rest)) =
      .ok (.step (preTextParts t ++ [MessagePart.textPart tp.openTag]) rest) := by
    unfold parseStep
    rw [if_neg (by simp [hne0])]
    rw [hearliest]
    dsimp only
    rw [htake, hcloseNone]
    dsimp only
    rw [hslice, hdropOpen]
    rfl
  rw [parseMessage_eq_step, hstep]
  dsimp only
  congr 1
  funext ps
  rw [List.append_assoc]
  rfl

theorem parse_block_general (tp : TagPair) (htp : tp ∈ tagPairs) (t mid rest : List Char)
    (ht : ('<' : Char) ∉ t)
    (hopen : tp.openTag.isPrefixOf mid = true)
    (hlen : tp.openTag.length + tp.closeTag.length ≤ mid.length)
    (hclose : findSub tp.closeTag (mid.drop tp.openTag.length ++ rest) =
      some (mid.length - tp.openTag.length - tp.closeTag.length)) :
    parseMessage (t ++ (mid ++ rest)) =
      (runProcessor tp.kind mid).bind (fun o =>
        (parseMessage rest).map (fun ps => preTextParts t ++ (o.toList ++ ps))) := by
  have hfacts := tagPairs_facts tp htp
  have hopenpre : tp.openTag.isPrefixOf (mid ++ rest) = true := by
    rw [ List.isPrefixOf_iff_prefix] at hopen ⊢
    exact hopen.trans (List.prefix_append mid rest)
  have hearliest := earliestTag_at tp htp t (mid ++ rest) ht hopenpre
  have hne0 : (t ++ (mid ++ rest)).isEmpty = false := by
    have hnn : t ++ (mid ++ rest) ≠ [] := by
      intro h0
      have hl0 := congrArg List.length h0
      rw [List.length_append, List.length_append] at hl0
      simp only [List.length_nil] at hl0
      have ho := hfacts.1
      omega
    cases hL : t ++ (mid ++ rest) with
    | nil => exact absurd hL hnn
    | cons a l => rfl
  have hdropOpen : (t ++ (mid ++ rest)).drop (t.length + tp.openTag.length) =
      mid.drop tp.openTag.length ++ rest := by
    rw [List.drop_append, List.drop_append_eq_append_drop,
      show tp.openTag.length - mid.length = 0 by omega, List.drop_zero]
  have hcloseFrom : findSubFrom tp.closeTag (t ++ (mid ++ rest))
      (t.length + tp.openTag.length) =
      some ((mid.length - tp.openTag.length - tp.closeTag.length) +
        (t.length + tp.openTag.length)) := by
    unfold findSubFrom
    rw [hdropOpen, hclose]
    rfl
  have htake : (t ++ (mid ++ rest)).take t.length = t := List.take_left t (mid ++ rest)
  have hslice : jsSlice (t ++ (mid ++ rest)) t.length
      ((mid.length - tp.openTag.length - tp.closeTag.length) +
        (t.length + tp.openTag.length) + tp.closeTag.length) = mid := by
    unfold jsSlice
    rw [List.drop_left t (mid ++ rest)]
    rw [show (mid.length - tp.openTag.length - tp.closeTag.length) +
        (t.length + tp.openTag.length) + tp.closeTag.length - t.length = mid.length by
      omega]
    exact List.take_left mid rest
  have hnext : (t ++ (mid ++ rest)).drop
      ((mid.length - tp.openTag.length - tp.closeTag.length) +
        (t.length + tp.openTag.length) + tp.closeTag.length) = rest := by
    rw [← List.append_assoc]
    rw [show (mid.length - tp.openTag.length - tp.closeTag.length) +
        (t.length + tp.openTag.length) + tp.closeTag.length = (t ++ mid).length + 0 by
      rw [List.length_append]; omega]
    rw [List.drop_append]
    rfl
  rcases hrp : runProcessor tp.kind mid with er | o
  · have hstep : parseStep (t ++ (mid ++ rest)) = .error er := by
      unfold parseStep
      rw [if_neg (by simp [hne0])]
      rw [hearliest]
      dsimp only
      rw [htake, hcloseFrom]
      dsimp only
      rw [hslice, hrp]
    rw [parseMessage_eq_step, hstep]
    rfl
  · have hstep : parseStep (t ++ (mid ++ rest)) =
        .ok (.step (preTextParts t ++ o.toList) rest) := by
      unfold parseStep
      rw [if_neg (by simp [hne0])]
      rw [hearliest]
      dsimp only
      rw [htake, hcloseFrom]
      dsimp only
      rw [hslice, hrp, hnext]
      rfl
    rw [parseMessage_eq_step, hstep]
    dsimp only
    congr 1
    funext ps
    rw [List.append_assoc]

/-! ## Trimmed strings: their first and last characters -/

theorem length_dropWhile_le (p : Char → Bool) (l : List Char) :
    (l.dropWhile p).length ≤ l.length :=
  (List.dropWhile_sublist p).length_le

theorem trim_self_head {q : List Char} (h : trimList q = q) (hne : q ≠ []) :
    ∃ c, q.head? = some c ∧ isWsChar c = false := by
  cases q with
  | nil => exact absurd rfl hne
  | cons a q2 =>
    refine ⟨a, List.head?_cons, ?_⟩
    by_contra hws
    rw [Bool.not_eq_false] at hws
    have hlen : (trimList (a :: q2)).length ≤ q2.length := by
      unfold trimList
      rw [List.dropWhile_cons, if_pos hws]
      calc ((q2.dropWhile isWsChar).reverse.dropWhile isWsChar).reverse.length
          = ((q2.dropWhile isWsChar).reverse.dropWhile isWsChar).length :=
            List.length_reverse _
        _ ≤ (q2.dropWhile isWsChar).reverse.length := length_dropWhile_le _ _
        _ = (q2.dropWhile isWsChar).length := List.length_reverse _
        _ ≤ q2.length := length_dropWhile_le _ _
    rw [h] at hlen
    simp only [List.length_cons] at hlen
    omega

theorem trim_self_last {q : List Char} (h : trimList q = q) (hne : q ≠ []) :
    ∃ d, q.getLast? = some d ∧ isWsChar d = false := by
  obtain ⟨c, hc, hcw⟩ := trim_self_head h hne
  have hdw : q.dropWhile isWsChar = q := by
    cases q with
    | nil => rfl
    | cons a q2 =>
      rw [List.head?_cons, Option.some.injEq] at hc
      rw [List.dropWhile_cons, if_neg (by rw [hc]; simp [hcw])]
  have hrev : q.reverse.dropWhile isWsChar = q.reverse := by
    have h2 : (q.reverse.dropWhile isWsChar).reverse = q := by
      unfold trimList at h
      rw [hdw] at h
      exact h
    have h3 := congrArg List.reverse h2
    rw [List.reverse_reverse] at h3
    exact h3
  rcases hqr : q.reverse with _ | ⟨d, r2⟩
  · rw [List.reverse_eq_nil_iff] at hqr
    exact absurd hqr hne
  · refine ⟨d, ?_, ?_⟩
    · rw [← List.head?_reverse, hqr]
      rfl
    · by_contra hws
      rw [Bool.not_eq_false] at hws
      rw [hqr, List.dropWhile_cons, if_pos hws] at hrev
      have hlen := congrArg List.length hrev
      rw [List.length_cons] at hlen
      have hle := length_dropWhile_le isWsChar r2
      omega

theorem matchSeq_lazyAny_lit_end {w c : List Char} {g : Groups}
    (hw : ('<' : Char) ∉ w) (hc : c.head? = some '<') :
    matchSeq [.lazyAny, .lit c] (w ++ c) g = some g := by
  have h := @matchSeq_lazyAny_lit w c [] [] g g hw hc rfl
  rw [List.append_nil] at h
  exact h

/-! ## The four well-formed canonical tags, parsed -/

theorem parse_completeTask_tag (t wA r wB rest : List Char)
    (ht : ('<' : Char) ∉ t) (hwA : wsOnly wA) (hr : ('<' : Char) ∉ r) (hrne : r ≠ [])
    (hwB : wsOnly wB) :
    parseMessage (t ++ (completeTaskTagText wA r wB ++ rest)) =
      (parseMessage rest).map (fun ps =>
        preTextParts t ++ (MessagePart.completeTask r none :: ps)) := by
  have hopen : (("<complete_task>").toList).isPrefixOf (completeTaskTagText wA r wB)
      = true := by
    rw [ List.isPrefixOf_iff_prefix]
    exact ⟨_, rfl⟩
  have hlen : (("<complete_task>").toList).length + (("</complete_task>").toList).length ≤
      (completeTaskTagText wA r wB).length := by
    simp only [completeTaskTagText, List.length_append]
    omega
  have hdropmid : (completeTaskTagText wA r wB).drop (("<complete_task>").toList).length =
      wA ++ (("<result>").toList ++ (r ++ (("</result>").toList ++
        (wB ++ ("</complete_task>").toList)))) := by
    unfold completeTaskTagText
    rw [List.drop_left]
  have hno : notOccAll (("</complete_task>").toList)
      (wA ++ (("<result>").toList ++ (r ++ (("</result>").toList ++ wB)))) := by
    refine notOccAll_append (notOccAll_of_noLt (noLt_of_wsOnly hwA) (by decide)) ?_
    refine notOccAll_append
      (notOccAll_lit (by decide) (by decide) (by decide) (by decide) (by decide)) ?_
    refine notOccAll_append (notOccAll_of_noLt hr (by decide)) ?_
    exact notOccAll_append
      (notOccAll_lit (by decide) (by decide) (by decide) (by decide) (by decide))
      (notOccAll_of_noLt (noLt_of_wsOnly hwB) (by decide))
  have hregion : (wA ++ (("<result>").toList ++ (r ++ (("</result>").toList ++
      (wB ++ ("</complete_task>").toList))))) ++ rest =
      (wA ++ (("<result>").toList ++ (r ++ (("</result>").toList ++ wB)))) ++
        (("</complete_task>").toList ++ rest) := by
    simp only [List.append_assoc]
  have hfind : findSub (("</complete_task>").toList)
      ((completeTaskTagText wA r wB).drop (("<complete_task>").toList).length ++ rest) =
      some ((completeTaskTagText wA r wB).length - (("<complete_task>").toList).length -
        (("</complete_task>").toList).length) := by
    rw [hdropmid, hregion, findSub_shift_of_notOcc hno,
      findSub_of_isPrefixOf (List.isPrefixOf_iff_prefix.mpr (List.prefix_append _ _))]
    simp only [Option.map_some', Option.some.injEq, completeTaskTagText,
      List.length_append]
    omega
  have hmat : matchSeq completeTaskAtoms (completeTaskTagText wA r wB) []
      = some [(1, r)] := by
    unfold completeTaskAtoms completeTaskTagText
    rw [matchSeq_lit]
    refine matchSeq_wsStar hwA ⟨'<', head?_append_of_some (by decide), by decide⟩ ?_
    rw [matchSeq_lit]
    refine matchSeq_lazyGroup_lit hr (by decide) ?_
    refine matchSeq_optGroup_skip ?_ ?_
    · rw [findSub_noLt_append wB (by decide) (noLt_of_wsOnly hwB),
        show findSub (("<command>").toList) (("</complete_task>").toList) = none by decide]
      rfl
    · refine matchSeq_wsStar hwB ⟨'<', by decide, by decide⟩ ?_
      exact matchSeq_lit_end
  have hre : r.isEmpty = false := by
    cases r with
    | nil => exact absurd rfl hrne
    | cons a rr => rfl
  have hproc : runProcessor TagKind.completeT (completeTaskTagText wA r wB) =
      .ok (some (MessagePart.completeTask r none)) := by
    have h1 : lookupGroup [(1, r)] 1 = some r := by simp [lookupGroup]
    have h2 : lookupGroup [(1, r)] 2 = none := by simp [lookupGroup]
    show Except.ok (processCompleteTaskMatch (completeTaskTagText wA r wB)) = _
    unfold processCompleteTaskMatch
    rw [firstMatchG_at_zero hmat]
    simp only [h1, h2, hre, optField, Bool.false_eq_true, if_false]
  have hmain := parse_block_general
    ⟨("<complete_task>").toList, ("</complete_task>").toList, TagKind.completeT⟩
    (by decide) t (completeTaskTagText wA r wB) rest ht hopen hlen hfind
  rw [hmain]
  dsimp only
  rw [hproc]
  rfl

theorem parse_performAction_tag (t wA a wB rest : List Char)
    (ht : ('<' : Char) ∉ t) (hwA : wsOnly wA) (ha : ('<' : Char) ∉ a) (hwB : wsOnly wB) :
    parseMessage (t ++ (performActionTagText wA a wB ++ rest)) =
      (parseMessage rest).map (fun ps =>
        preTextParts t ++ (MessagePart.performAction a none none none none :: ps)) := by
  have hopen : (("<perform_action>").toList).isPrefixOf (performActionTagText wA a wB)
      = true := by
    rw [ List.isPrefixOf_iff_prefix]
    exact ⟨_, rfl⟩
  have hlen : (("<perform_action>").toList).length +
      (("</perform_action>").toList).length ≤ (performActionTagText wA a wB).length := by
    simp only [performActionTagText, List.length_append]
    omega
  have hdropmid : (performActionTagText wA a wB).drop
      (("<perform_action>").toList).length =
      wA ++ (("<action>").toList ++ (a ++ (("</action>").toList ++
        (wB ++ ("</perform_action>").toList)))) := by
    unfold performActionTagText
    rw [List.drop_left]
  have hno : notOccAll (("</perform_action>").toList)
      (wA ++ (("<action>").toList ++ (a ++ (("</action>").toList ++ wB)))) := by
    refine notOccAll_append (notOccAll_of_noLt (noLt_of_wsOnly hwA) (by decide)) ?_
    refine notOccAll_append
      (notOccAll_lit (by decide) (by decide) (by decide) (by decide) (by decide)) ?_
    refine notOccAll_append (notOccAll_of_noLt ha (by decide)) ?_
    exact notOccAll_append
      (notOccAll_lit (by decide) (by decide) (by decide) (by decide) (by decide))
      (notOccAll_of_noLt (noLt_of_wsOnly hwB) (by decide))
  have hregion : (wA ++ (("<action>").toList ++ (a ++ (("</action>").toList ++
      (wB ++ ("</perform_action>").toList))))) ++ rest =
      (wA ++ (("<action>").toList ++ (a ++ (("</action>").toList ++ wB)))) ++
        (("</perform_action>").toList ++ rest) := by
    simp only [List.append_assoc]
  have hfind : findSub (("</perform_action>").toList)
      ((performActionTagText wA a wB).drop (("<perform_action>").toList).length ++ rest) =
      some ((performActionTagText wA a wB).length - (("<perform_action>").toList).length -
        (("</perform_action>").toList).length) := by
    rw [hdropmid, hregion, findSub_shift_of_notOcc hno,
      findSub_of_isPrefixOf (List.isPrefixOf_iff_prefix.mpr (List.prefix_append _ _))]
    simp only [Option.map_some', Option.some.injEq, performActionTagText,
      List.length_append]
    omega
  have hmat : matchSeq performActionAtoms (performActionTagText wA a wB) []
      = some [(1, a)] := by
    unfold performActionAtoms performActionTagText
    rw [matchSeq_lit]
    refine matchSeq_lazyAny_lit (noLt_of_wsOnly hwA) (by decide) ?_
    refine matchSeq_lazyGroup_lit ha (by decide) ?_
    refine matchSeq_optGroup_skip ?_ ?_
    · rw [findSub_noLt_append wB (by decide) (noLt_of_wsOnly hwB),
        show findSub (("<url>").toList) (("</perform_action>").toList) = none by decide]
      rfl
    refine matchSeq_optGroup_skip ?_ ?_
    · rw [findSub_noLt_append wB (by decide) (noLt_of_wsOnly hwB),
        show findSub (("<coordinate>").toList) (("</perform_action>").toList) = none
          by decide]
      rfl
    refine matchSeq_optGroup_skip ?_ ?_
    · rw [findSub_noLt_append wB (by decide) (noLt_of_wsOnly hwB),
        show findSub (("<text>").toList) (("</perform_action>").toList) = none by decide]
      rfl
    refine matchSeq_optGroup_skip ?_ ?_
    · rw [findSub_noLt_append wB (by decide) (noLt_of_wsOnly hwB),
        show findSub (("<key>").toList) (("</perform_action>").toList) = none by decide]
      rfl
    refine matchSeq_optGroup_skip ?_ ?_
    · rw [findSub_noLt_append wB (by decide) (noLt_of_wsOnly hwB),
        show findSub (("<about_this_action>").toList) (("</perform_action>").toList) = none
          by decide]
      rfl
    refine matchSeq_optGroup_skip ?_ ?_
    · rw [findSub_noLt_append wB (by decide) (noLt_of_wsOnly hwB),
        show findSub (("<marker_number>").toList) (("</perform_action>").toList) = none
          by decide]
      rfl
    exact matchSeq_lazyAny_lit_end (noLt_of_wsOnly hwB) (by decide)
  have hproc : runProcessor TagKind.performA (performActionTagText wA a wB) =
      .ok (some (MessagePart.performAction a none none none none)) := by
    have h1 : lookupGroup [(1, a)] 1 = some a := by simp [lookupGroup]
    have h2 : lookupGroup [(1, a)] 2 = none := by simp [lookupGroup]
    have h3 : lookupGroup [(1, a)] 3 = none := by simp [lookupGroup]
    have h4 : lookupGroup [(1, a)] 4 = none := by simp [lookupGroup]
    have h5 : lookupGroup [(1, a)] 5 = none := by simp [lookupGroup]
    show Except.ok (performActionMatch (performActionTagText wA a wB)) = _
    unfold performActionMatch
    rw [firstMatchG_at_zero hmat]
    simp only [h1, h2, h3, h4, h5, optField, Option.getD_some]
  have hmain := parse_block_general
    ⟨("<perform_action>").toList, ("</perform_action>").toList, TagKind.performA⟩
    (by decide) t (performActionTagText wA a wB) rest ht hopen hlen hfind
  rw [hmain]
  dsimp only
  rw [hproc]
  rfl

theorem parse_followup_tag (t wA wB q wC wD rest : List Char)
    (ht : ('<' : Char) ∉ t) (hwA : wsOnly wA) (hwB : wsOnly wB) (hq : ('<' : Char) ∉ q)
    (hqne : q ≠ []) (hqt : trimList q = q) (hwC : wsOnly wC) (hwD : wsOnly wD) :
    parseMessage (t ++ (followupTagText wA wB q wC wD ++ rest)) =
      (parseMessage rest).map (fun ps =>
        preTextParts t ++ (MessagePart.followupQuestion q :: ps)) := by
  obtain ⟨c0, hc0, hc0w⟩ := trim_self_head hqt hqne
  have hlast := trim_self_last hqt hqne
  have hopen : (("<ask_followup_question>").toList).isPrefixOf
      (followupTagText wA wB q wC wD) = true := by
    rw [ List.isPrefixOf_iff_prefix]
    exact ⟨_, rfl⟩
  have hlen : (("<ask_followup_question>").toList).length +
      (("</ask_followup_question>").toList).length ≤
      (followupTagText wA wB q wC wD).length := by
    simp only [followupTagText, List.length_append]
    omega
  have hdropmid : (followupTagText wA wB q wC wD).drop
      (("<ask_followup_question>").toList).length =
      wA ++ (("<question>").toList ++ (wB ++ (q ++ (wC ++ (("</question>").toList ++
        (wD ++ ("</ask_followup_question>").toList)))))) := by
    unfold followupTagText
    rw [List.drop_left]
  have hno : notOccAll (("</ask_followup_question>").toList)
      (wA ++ (("<question>").toList ++ (wB ++ (q ++ (wC ++ (("</question>").toList ++
        wD)))))) := by
    refine notOccAll_append (notOccAll_of_noLt (noLt_of_wsOnly hwA) (by decide)) ?_
    refine notOccAll_append
      (notOccAll_lit (by decide) (by decide) (by decide) (by decide) (by decide)) ?_
    refine notOccAll_append (notOccAll_of_noLt (noLt_of_wsOnly hwB) (by decide)) ?_
    refine notOccAll_append (notOccAll_of_noLt hq (by decide)) ?_
    refine notOccAll_append (notOccAll_of_noLt (noLt_of_wsOnly hwC) (by decide)) ?_
    exact notOccAll_append
      (notOccAll_lit (by decide) (by decide) (by decide) (by decide) (by decide))
      (notOccAll_of_noLt (noLt_of_wsOnly hwD) (by decide))
  have hregion : (wA ++ (("<question>").toList ++ (wB ++ (q ++ (wC ++
      (("</question>").toList ++ (wD ++ ("</ask_followup_question>").toList))))))) ++ rest =
      (wA ++ (("<question>").toList ++ (wB ++ (q ++ (wC ++ (("</question>").toList ++
        wD)))))) ++ (("</ask_followup_question>").toList ++ rest) := by
    simp only [List.append_assoc]
  have hfind : findSub (("</ask_followup_question>").toList)
      ((followupTagText wA wB q wC wD).drop
        (("<ask_followup_question>").toList).length ++ rest) =
      some ((followupTagText wA wB q wC wD).length -
        (("<ask_followup_question>").toList).length -
        (("</ask_followup_question>").toList).length) := by
    rw [hdropmid, hregion, findSub_shift_of_notOcc hno,
      findSub_of_isPrefixOf (List.isPrefixOf_iff_prefix.mpr (List.prefix_append _ _))]
    simp only [Option.map_some', Option.some.injEq, followupTagText, List.length_append]
    omega
  have hmat : matchSeq followupQuestionAtoms (followupTagText wA wB q wC wD) []
      = some [(1, q)] := by
    unfold followupQuestionAtoms followupTagText
    rw [matchSeq_lit]
    refine matchSeq_wsStar hwA ⟨'<', head?_append_of_some (by decide), by decide⟩ ?_
    rw [matchSeq_lit]
    refine matchSeq_wsStar hwB ⟨c0, head?_append_of_some hc0, hc0w⟩ ?_
    refine matchSeq_lazyGroup_ws_lit hq (by decide) hlast ?_
    refine matchSeq_wsStar hwC ⟨'<', head?_append_of_some (by decide), by decide⟩ ?_
    rw [matchSeq_lit]
    refine matchSeq_wsStar hwD ⟨'<', by decide, by decide⟩ ?_
    exact matchSeq_lit_end
  have hqe : q.isEmpty = false := by
    cases q with
    | nil => exact absurd rfl hqne
    | cons a qq => rfl
  have hproc : runProcessor TagKind.followupQ (followupTagText wA wB q wC wD) =
      .ok (some (MessagePart.followupQuestion q)) := by
    have h1 : lookupGroup [(1, q)] 1 = some q := by simp [lookupGroup]
    show Except.ok (processFollowupQuestion (followupTagText wA wB q wC wD)) = _
    unfold processFollowupQuestion
    rw [firstMatchG_at_zero hmat]
    simp only [Option.some_bind, h1, hqe, Bool.false_eq_true, if_false]
  have hmain := parse_block_general
    ⟨("<ask_followup_question>").toList, ("</ask_followup_question>").toList,
      TagKind.followupQ⟩
    (by decide) t (followupTagText wA wB q wC wD) rest ht hopen hlen hfind
  rw [hmain]
  dsimp only
  rw [hproc]
  rfl

theorem parse_actionResult_tag (t wA st wB m wC rest : List Char)
    (ht : ('<' : Char) ∉ t) (hwA : wsOnly wA)
    (hst : st = ("success").toList ∨ st = ("error").toList)
    (hwB : wsOnly wB) (hm : ('<' : Char) ∉ m) (hwC : wsOnly wC) :
    parseMessage (t ++ (actionResultTagText wA st wB m wC ++ rest)) =
      (parseMessage rest).map (fun ps =>
        preTextParts t ++ (MessagePart.actionResult st m none none :: ps)) := by
  have hstno : ('<' : Char) ∉ st := by
    rcases hst with rfl | rfl
    · decide
    · decide
  have hopen : (("<perform_action_result>").toList).isPrefixOf
      (actionResultTagText wA st wB m wC) = true := by
    rw [ List.isPrefixOf_iff_prefix]
    exact ⟨_, rfl⟩
  have hlen : (("<perform_action_result>").toList).length +
      (("</perform_action_result>").toList).length ≤
      (actionResultTagText wA st wB m wC).length := by
    simp only [actionResultTagText, List.length_append]
    omega
  have hdropmid : (actionResultTagText wA st wB m wC).drop
      (("<perform_action_result>").toList).length =
      wA ++ (("<action_status>").toList ++ (st ++ (("</action_status>").toList ++
        (wB ++ (("<action_message>").toList ++ (m ++ (("</action_message>").toList ++
          (wC ++ ("</perform_action_result>").toList)))))))) := by
    unfold actionResultTagText
    rw [List.drop_left]
  have hno : notOccAll (("</perform_action_result>").toList)
      (wA ++ (("<action_status>").toList ++ (st ++ (("</action_status>").toList ++
        (wB ++ (("<action_message>").toList ++ (m ++ (("</action_message>").toList ++
          wC)))))))) := by
    refine notOccAll_append (notOccAll_of_noLt (noLt_of_wsOnly hwA) (by decide)) ?_
    refine notOccAll_append
      (notOccAll_lit (by decide) (by decide) (by decide) (by decide) (by decide)) ?_
    refine notOccAll_append (notOccAll_of_noLt hstno (by decide)) ?_
    refine notOccAll_append
      (notOccAll_lit (by decide) (by decide) (by decide) (by decide) (by decide)) ?_
    refine notOccAll_append (notOccAll_of_noLt (noLt_of_wsOnly hwB) (by decide)) ?_
    refine notOccAll_append
      (notOccAll_lit (by decide) (by decide) (by decide) (by decide) (by decide)) ?_
    refine notOccAll_append (notOccAll_of_noLt hm (by decide)) ?_
    exact notOccAll_append
      (notOccAll_lit (by decide) (by decide) (by decide) (by decide) (by decide))
      (notOccAll_of_noLt (noLt_of_wsOnly hwC) (by decide))
  have hregion : (wA ++ (("<action_status>").toList ++ (st ++
      (("</action_status>").toList ++ (wB ++ (("<action_message>").toList ++ (m ++
        (("</action_message>").toList ++ (wC ++
          ("</perform_action_result>").toList))))))))) ++ rest =
      (wA ++ (("<action_status>").toList ++ (st ++ (("</action_status>").toList ++
        (wB ++ (("<action_message>").toList ++ (m ++ (("</action_message>").toList ++
          wC)))))))) ++ (("</perform_action_result>").toList ++ rest) := by
    simp only [List.append_assoc]
  have hfind : findSub (("</perform_action_result>").toList)
      ((actionResultTagText wA st wB m wC).drop
        (("<perform_action_result>").toList).length ++ rest) =
      some ((actionResultTagText wA st wB m wC).length -
        (("<perform_action_result>").toList).length -
        (("</perform_action_result>").toList).length) := by
    rw [hdropmid, hregion, findSub_shift_of_notOcc hno,
      findSub_of_isPrefixOf (List.isPrefixOf_iff_prefix.mpr (List.prefix_append _ _))]
    simp only [Option.map_some', Option.some.injEq, actionResultTagText,
      List.length_append]
    omega
  have hmat : matchSeq actionResultAtoms (actionResultTagText wA st wB m wC) []
      = some [(2, m), (1, st)] := by
    unfold actionResultAtoms actionResultTagText
    rw [matchSeq_lit]
    refine matchSeq_lazyAny_lit (noLt_of_wsOnly hwA) (by decide) ?_
    have hcont : ∀ stv : List Char,
        matchSeq [.lit (("</action_status>").toList), .lazyAny,
          .lit (("<action_message>").toList), .lazyGroup 2,
          .lit (("</action_message>").toList),
          .optGroup .lazyAnySep (("<screenshot>").toList) 3 (("</screenshot>").toList),
          .optGroup .lazyAnySep (("<omni_parser>").toList) 4 (("</omni_parser>").toList),
          .lazyAny, .lit (("</perform_action_result>").toList)]
          (("</action_status>").toList ++ (wB ++ (("<action_message>").toList ++ (m ++
            (("</action_message>").toList ++ (wC ++
              ("</perform_action_result>").toList)))))) [(1, stv)]
          = some [(2, m), (1, stv)] := by
      intro stv
      rw [matchSeq_lit]
      refine matchSeq_lazyAny_lit (noLt_of_wsOnly hwB) (by decide) ?_
      refine matchSeq_lazyGroup_lit hm (by decide) ?_
      refine matchSeq_optGroup_skip ?_ ?_
      · rw [findSub_noLt_append wC (by decide) (noLt_of_wsOnly hwC),
          show findSub (("<screenshot>").toList) (("</perform_action_result>").toList)
            = none by decide]
        rfl
      refine matchSeq_optGroup_skip ?_ ?_
      · rw [findSub_noLt_append wC (by decide) (noLt_of_wsOnly hwC),
          show findSub (("<omni_parser>").toList) (("</perform_action_result>").toList)
            = none by decide]
        rfl
      exact matchSeq_lazyAny_lit_end (noLt_of_wsOnly hwC) (by decide)
    rcases hst with rfl | rfl
    · exact matchSeq_statusAlt_left (hcont _)
    · refine matchSeq_statusAlt_right ?_ (hcont _)
      exact isPrefixOf_false_of_head_ne (a := 's') (b := 'e') (by decide)
        (head?_append_of_some (by decide)) (by decide)
  have hproc : runProcessor TagKind.actionR (actionResultTagText wA st wB m wC) =
      .ok (some (MessagePart.actionResult st m none none)) := by
    have h1 : lookupGroup [(2, m), (1, st)] 1 = some st := by simp [lookupGroup]
    have h2 : lookupGroup [(2, m), (1, st)] 2 = some m := by simp [lookupGroup]
    have h3 : lookupGroup [(2, m), (1, st)] 3 = none := by simp [lookupGroup]
    have h4 : lookupGroup [(2, m), (1, st)] 4 = none := by simp [lookupGroup]
    show performActionResultMatch (actionResultTagText wA st wB m wC) = _
    unfold performActionResultMatch
    rw [firstMatchG_at_zero hmat]
    simp only [h1, h2, h3, h4, optField, Option.getD_some]
  have hmain := parse_block_general
    ⟨("<perform_action_result>").toList, ("</perform_action_result>").toList,
      TagKind.actionR⟩
    (by decide) t (actionResultTagText wA st wB m wC) rest ht hopen hlen hfind
  rw [hmain]
  dsimp only
  rw [hproc]
  rfl

/-! ## C4: unmatched opening tag degrades to literal text -/

/-- C4 (amended): for any opening tag of the grammar whose closing tag does
not occur in the remainder of the string, and any preceding text that does
not itself contain a `<` (an earlier tag start would be processed first),
`parseMessage` emits the trimmed preceding text (when nonempty) and then
the opening tag itself, verbatim, as literal `text` parts, and continues
scanning right after the opening tag — the unmatched tag is never dropped
and never aborts the scan; any throw of the continuation is propagated
unchanged.  (The original claim's "does not throw — a total function over
any string" is refuted by `parseMessage_unmatched_tag_input_throws`:
`performActionResultMatch` applies `JSON.parse` to a truthy `omni_parser`
capture, which throws on non-JSON bodies.) -/
theorem parseMessage_unmatched_open_tag_degrades :
    ∀ tp ∈ tagPairs, ∀ (t rest : List Char), ('<' : Char) ∉ t →
      findSub tp.closeTag rest = none →
      parseMessage (t ++ (tp.openTag ++ rest)) =
        (parseMessage rest).map (fun ps =>
          preTextParts t ++ (MessagePart.textPart tp.openTag :: ps)) :=
  fun tp htp t rest ht hclose => parse_unmatched_general tp htp t rest ht hclose

theorem parseMessage_unmatched_open_tag_degrades_witness :
    parseMessage (("Click here: ").toList ++ (("<complete_task>").toList ++
        ("hello").toList)) =
      (parseMessage (("hello").toList)).map (fun ps =>
        preTextParts (("Click here: ").toList) ++
          (MessagePart.textPart (("<complete_task>").toList) :: ps)) :=
  parseMessage_unmatched_open_tag_degrades
    ⟨("<complete_task>").toList, ("</complete_task>").toList, .completeT⟩ (by decide)
    (("Click here: ").toList) (("hello").toList) (by decide) (by decide)

/-- C4 counterexample: an input that contains the opening tag
`<complete_task>` with no matching closing tag anywhere, yet `parseMessage`
throws on it: the scanner degrades the unmatched tag to text and moves on,
but the following well-formed `perform_action_result` tag has the
non-JSON `omni_parser` body `x`, and `JSON.parse` throws inside
`performActionResultMatch` — `parseMessage` is not total. -/
theorem parseMessage_unmatched_tag_input_throws :
    findSub (("<complete_task>").toList) unmatchedThrowInput = some 0 ∧
    findSub (("</complete_task>").toList) unmatchedThrowInput = none ∧
    parseMessage unmatchedThrowInput = .error () := by
  exact ⟨by decide, by decide, rfl⟩

/-! ## C3: a complete well-formed tag parses to exactly one typed part -/

/-- C3 (amended): an input containing a complete well-formed tag parses to
the parts of the text before it (trimmed), exactly one corresponding typed
part, and the parts of the remainder — for every tag kind of the grammar,
independent of the whitespace in the slack the patterns allow, provided
the preceding text contains no `<`, the bodies contain no `<`, the
`complete_task` result and `followup_question` question are nonempty (an
empty capture is falsy and yields no part), and the optional
`command`/`screenshot`/`omni_parser` sections are absent (a
`perform_action_result` with a non-JSON `omni_parser` body throws).
Bodies are stored exactly as the regexes capture them: verbatim —
untrimmed — for `complete_task` results, `perform_action` actions and
`perform_action_result` messages (refuting the claimed trimming, see
`parseMessage_complete_task_not_trimmed`); only the `followup_question`
body is trimmed, by the `[\s\n]*` in its pattern, stated here by
surrounding a trimmed question `q` with arbitrary whitespace `wB`/`wC`. -/
theorem parseMessage_single_wellformed_tag :
    (∀ t wA r wB rest, ('<' : Char) ∉ t → wsOnly wA → ('<' : Char) ∉ r → r ≠ [] →
      wsOnly wB →
      parseMessage (t ++ (completeTaskTagText wA r wB ++ rest)) =
        (parseMessage rest).map (fun ps =>
          preTextParts t ++ (MessagePart.completeTask r none :: ps))) ∧
    (∀ t wA wB q wC wD rest, ('<' : Char) ∉ t → wsOnly wA → wsOnly wB →
      ('<' : Char) ∉ q → q ≠ [] → trimList q = q → wsOnly wC → wsOnly wD →
      parseMessage (t ++ (followupTagText wA wB q wC wD ++ rest)) =
        (parseMessage rest).map (fun ps =>
          preTextParts t ++ (MessagePart.followupQuestion q :: ps))) ∧
    (∀ t wA a wB rest, ('<' : Char) ∉ t → wsOnly wA → ('<' : Char) ∉ a → wsOnly wB →
      parseMessage (t ++ (performActionTagText wA a wB ++ rest)) =
        (parseMessage rest).map (fun ps =>
          preTextParts t ++ (MessagePart.performAction a none none none none :: ps))) ∧
    (∀ t wA st wB m wC rest, ('<' : Char) ∉ t → wsOnly wA →
      (st = ("success").toList ∨ st = ("error").toList) → wsOnly wB →
      ('<' : Char) ∉ m → wsOnly wC →
      parseMessage (t ++ (actionResultTagText wA st wB m wC ++ rest)) =
        (parseMessage rest).map (fun ps =>
          preTextParts t ++ (MessagePart.actionResult st m none none :: ps))) := by
  refine ⟨?_, ?_, ?_, ?_⟩
  · intro t wA r wB rest ht hwA hr hrne hwB
    exact parse_completeTask_tag t wA r wB rest ht hwA hr hrne hwB
  · intro t wA wB q wC wD rest ht hwA hwB hq hqne hqt hwC hwD
    exact parse_followup_tag t wA wB q wC wD rest ht hwA hwB hq hqne hqt hwC hwD
  · intro t wA a wB rest ht hwA ha hwB
    exact parse_performAction_tag t wA a wB rest ht hwA ha hwB
  · intro t wA st wB m wC rest ht hwA hst hwB hm hwC
    exact parse_actionResult_tag t wA st wB m wC rest ht hwA hst hwB hm hwC

theorem parseMessage_single_wellformed_tag_witness :
    (parseMessage (("Hi! ").toList ++ (completeTaskTagText ([' ']) ((" Done ").toList)
        (['\n']) ++ ("ok").toList)) =
      (parseMessage (("ok").toList)).map (fun ps =>
        preTextParts (("Hi! ").toList) ++
          (MessagePart.completeTask ((" Done ").toList) none :: ps))) ∧
    (parseMessage (([] : List Char) ++ (followupTagText ([' ']) ([' ', '\n'])
        (("Where to?").toList) (['\n']) ([]) ++ ([] : List Char))) =
      (parseMessage ([] : List Char)).map (fun ps =>
        preTextParts ([] : List Char) ++
          (MessagePart.followupQuestion (("Where to?").toList) :: ps))) ∧
    (parseMessage (([] : List Char) ++ (performActionTagText ([]) ((" click ").toList)
        ([' ']) ++ ([] : List Char))) =
      (parseMessage ([] : List Char)).map (fun ps =>
        preTextParts ([] : List Char) ++
          (MessagePart.performAction ((" click ").toList) none none none none :: ps))) ∧
    (parseMessage (([] : List Char) ++ (actionResultTagText ([' ']) (("error").toList)
        (['\n']) ((" msg ").toList) ([]) ++ ("tail").toList)) =
      (parseMessage (("tail").toList)).map (fun ps =>
        preTextParts ([] : List Char) ++
          (MessagePart.actionResult (("error").toList) ((" msg ").toList) none none
            :: ps))) :=
  ⟨parseMessage_single_wellformed_tag.1 (("Hi! ").toList) ([' ']) ((" Done ").toList)
      (['\n']) (("ok").toList) (by decide) (by decide) (by decide) (by decide) (by decide),
    parseMessage_single_wellformed_tag.2.1 ([]) ([' ']) ([' ', '\n'])
      (("Where to?").toList) (['\n']) ([]) ([]) (by decide) (by decide) (by decide)
      (by decide) (by decide) (by decide) (by decide) (by decide),
    parseMessage_single_wellformed_tag.2.2.1 ([]) ([]) ((" click ").toList) ([' ']) ([])
      (by decide) (by decide) (by decide) (by decide),
    parseMessage_single_wellformed_tag.2.2.2 ([]) ([' ']) (("error").toList) (['\n'])
      ((" msg ").toList) ([]) (("tail").toList) (by decide) (by decide)
      (Or.inr (by decide)) (by decide) (by decide) (by decide)⟩

/-- C3 counterexample: on a complete, well-formed `complete_task` tag the
parser returns exactly one typed part, but its `result` field is the body
*verbatim* — `" Done "`, not the trimmed `"Done"` the claim demands; and a
well-formed `complete_task` whose result body is empty yields *zero* parts
(the empty capture is falsy), not exactly one. -/
theorem parseMessage_complete_task_not_trimmed :
    parseMessage (("<complete_task><result> Done </result></complete_task>").toList) =
      .ok [MessagePart.completeTask ((" Done ").toList) none] ∧
    (" Done ").toList ≠ trimList ((" Done ").toList) ∧
    parseMessage (("<complete_task><result></result></complete_task>").toList) =
      .ok [] := by
  exact ⟨rfl, by decide, rfl⟩
